import Mathlib

/-!
# C-Thread-Pool (`thpool.c`): a verification development

The C program is embedded as state-passing functions over a process state
`Proc`.  A function returns `none` where the C program has no defined next
state: a NULL or dangling dereference, `exit(1)`, or a thread that cannot take
its step (a `sem_wait` on a zero semaphore, a `pthread_join` on a live thread).

Conventions of the embedding:

* Addresses are indices: `jobs[p]` is the `job_t` at address `p`, `pools[tp_p]`
  the `thpool_t` at address `tp_p`; a freed cell is `none`.  `malloc` returns
  the next unused index.  A function pointer and a `void*` argument are numbers.
* The semaphore `queued_jobsN` is its counter.  `sem_post` fails with
  EOVERFLOW, leaving the counter unchanged, when the counter is at
  `SEM_VALUE_MAX`; `sem_wait` does not fail, and `sem_destroy` leaves the
  counter readable.
* `pthread_create` may fail; the outcome of each call is an input of
  `thpool_init`.  A failed call starts no thread and leaves the handle
  `threads[t]` indeterminate (`none`).
* The `sleep(1)` and the `printf`/`puts` calls change no state and are left
  out.
* The static `mutex` makes each region it guards one atomic step; the reads
  and the write of `thpool_keepalive` and the semaphore operations of a thread
  are steps of their own.
-/

namespace ThPool

/-! ## Data model -/

/-- Modelled from the spec: `job_t` is declared in thpool.h, which is not among
the sources.  A Job is a function reference plus one argument reference, and
each Job can find its predecessor; the fields are the four that thpool.c reads
and writes (`function`, `arg`, `next`, `prev`). -/
structure job_t where
  function : Nat
  arg : Nat
  next : Option Nat
  prev : Option Nat
deriving DecidableEq, Repr

/-- Modelled from the spec: `thpool_jobqueue` is declared in thpool.h, which is
not among the sources.  The Job Queue is an ordered sequence of Jobs with a
head and a tail reference; thpool.c uses exactly `head` and `tail`. -/
structure thpool_jobqueue where
  head : Option Nat
  tail : Option Nat
deriving DecidableEq, Repr

/-- Modelled from the spec: `thpool_t` is declared in thpool.h, which is not
among the sources.  The Thread Pool owns the Job Queue, the table of worker
thread handles, their count, and the counting signal; thpool.c uses `threads`,
`threadsN`, `jobqueue` and `queued_jobsN`.  The queue and the semaphore, which
the C code reaches through owned pointers, are stored in place. -/
structure thpool_t where
  threads : List (Option Nat)
  threadsN : Int
  jobqueue : thpool_jobqueue
  queued_jobsN : Nat
deriving DecidableEq, Repr

/-- Control points of `thpool_thread_do` (lines 86-122).  The `sleep(1)` at
entry changes no state and is skipped. -/
inductive PC where
  /-- line 90: about to evaluate `while(thpool_keepalive)` -/
  | while_keepalive
  /-- line 92: about to call `sem_wait(tp_p->queued_jobsN)` -/
  | sem_wait
  /-- line 97: about to evaluate `if (thpool_keepalive)` -/
  | if_keepalive
  /-- lines 104-107: about to lock, call `jobqueue_pull`, unlock -/
  | pull
  /-- lines 109-114: holds `job_p`, about to test it and call the function -/
  | run (job_p : Option Nat)
  /-- lines 118, 121: the thread has returned -/
  | returned
deriving DecidableEq, Repr

/-- A worker thread made by `pthread_create` in `thpool_init`: its argument
`tp_p` and where it stands in `thpool_thread_do`. -/
structure Thread where
  tp_p : Nat
  pc : PC
deriving DecidableEq, Repr

/-- Control points of `thpool_destroy` (lines 151-181). -/
inductive DPC where
  /-- line 155: about to write `thpool_keepalive=0` -/
  | keepalive
  /-- lines 158-162: loop variable `t`, about to test `t<threadsN` and post -/
  | sem_post (t : Nat)
  /-- line 165: about to call `sem_destroy` -/
  | sem_destroy
  /-- lines 170-172: loop variable `t`, about to test `t<threadsN` and join -/
  | join (t : Nat)
  /-- line 174: about to call `jobqueue_empty` -/
  | jobqueue_empty
  /-- lines 177-180: about to free the pool -/
  | dealloc
  /-- line 181: the call has returned -/
  | returned
deriving DecidableEq, Repr

/-- A call of `thpool_destroy(tp_p)` in progress. -/
structure Destroy where
  tp_p : Nat
  pc : DPC
deriving DecidableEq, Repr

/-- What a worker did, as recorded in the process state: `pull t job_p` when
`jobqueue_pull` returned `job_p` to thread `t` (line 106), `call t job_p f a`
when thread `t` called the function `f` of the job at `job_p` on argument `a`
(line 112). -/
inductive Event where
  | pull (thread : Nat) (job_p : Option Nat)
  | call (thread : Nat) (job_p : Nat) (function arg : Nat)
deriving DecidableEq, Repr

/-- The state of the process: the static `thpool_keepalive` (line 36), the
allocated jobs and pools, the worker threads, the calls of `thpool_destroy`
in progress, and the record of the pulls and job function calls so far, in
order.
The static `mutex` is not a field: each region it guards is one atomic step. -/
structure Proc where
  thpool_keepalive : Int
  jobs : List (Option job_t)
  pools : List (Option thpool_t)
  threads : List Thread
  destroys : List Destroy
  log : List Event
deriving DecidableEq, Repr

/-- The process at program start: `static int thpool_keepalive=1`, nothing
allocated, no thread. -/
def Proc.start : Proc :=
  { thpool_keepalive := 1, jobs := [], pools := [], threads := [], destroys := [], log := [] }

/-- Read `*tp_p`. -/
def Proc.pool (s : Proc) (tp_p : Nat) : Option thpool_t :=
  (s.pools[tp_p]?).join

/-- Write `*tp_p`. -/
def Proc.setPool (s : Proc) (tp_p : Nat) (tp : thpool_t) : Proc :=
  { s with pools := s.pools.set tp_p (some tp) }

/-- Read `*p` for a job pointer `p`; `none` when `p` is NULL or not allocated. -/
def Proc.deref (s : Proc) (p : Option Nat) : Option job_t :=
  p.bind fun a => (s.jobs[a]?).join

/-- Assign to fields of `*p`; `none` when `p` is NULL or not allocated. -/
def Proc.modJob (s : Proc) (p : Option Nat) (f : job_t → job_t) : Option Proc :=
  match p with
  | none => none
  | some a =>
    match s.deref (some a) with
    | none => none
    | some j => some { s with jobs := s.jobs.set a (some (f j)) }

/-- The call `free(p)` for a job pointer. -/
def Proc.free (s : Proc) (p : Option Nat) : Option Proc :=
  match p with
  | none => some s
  | some a =>
    match s.deref (some a) with
    | none => none
    | some _ => some { s with jobs := s.jobs.set a none }

/-- Set the control point of worker thread `t`. -/
def Proc.setPc (s : Proc) (t : Nat) (pc : PC) : Proc :=
  { s with threads := s.threads.modify (fun th => { th with pc := pc }) t }

/-- Set the control point of the `d`-th call of `thpool_destroy`. -/
def Proc.setDpc (s : Proc) (d : Nat) (pc : DPC) : Proc :=
  { s with destroys := s.destroys.modify (fun c => { c with pc := pc }) d }

/-! ## The semaphore -/

/-- The largest value of a semaphore, `SEM_VALUE_MAX` of `<limits.h>`: on
Linux with glibc it is `INT_MAX`, the largest `int` that `sem_getvalue` can
store. -/
def SEM_VALUE_MAX : Nat := 2147483647

/-- The call `sem_post` on a semaphore of value `v`: the `int` result and the
new value.  At `SEM_VALUE_MAX` the call fails (-1, `errno` EOVERFLOW) and the
value is unchanged. -/
def sem_post (v : Nat) : Int × Nat :=
  if v < SEM_VALUE_MAX then (0, v + 1) else (-1, v)

/-! ## Job queue operations (lines 185-274) -/

/-- Lines 190-196, with `ok` the outcome of the `malloc`: the queue starts with
`tail` and `head` NULL; returns -1 when the allocation fails. -/
def jobqueue_init (ok : Bool) : Int × thpool_jobqueue :=
  if ok then (0, { head := none, tail := none }) else (-1, { head := none, tail := none })

/-- The counter of the semaphore `tp_p->queued_jobsN`. -/
def Proc.sem (s : Proc) (tp_p : Nat) : Option Nat :=
  (s.pool tp_p).map fun tp => tp.queued_jobsN

/-- Lines 200-204: the value of the semaphore as `sem_getvalue` stores it in
the `int` that is returned. -/
def jobqueue_len (s : Proc) (tp_p : Nat) : Option Int :=
  (s.pool tp_p).map fun tp => (tp.queued_jobsN : Int)

/-- Lines 208-226. -/
def jobqueue_push (s : Proc) (tp_p : Nat) (newjob_p : Nat) : Option Proc := do
  -- newjob_p->next=NULL
  let s ← s.modJob (some newjob_p) fun j => { j with next := none }
  let tp ← s.pool tp_p
  match tp.queued_jobsN with
  | 0 =>
    -- tail=newjob_p; head=newjob_p
    pure (s.setPool tp_p { tp with jobqueue := { head := some newjob_p, tail := some newjob_p } })
  | _ + 1 =>
    -- tail->next=newjob_p
    let s ← s.modJob tp.jobqueue.tail fun j => { j with next := some newjob_p }
    -- newjob_p->prev=tail
    let s ← s.modJob (some newjob_p) fun j => { j with prev := tp.jobqueue.tail }
    -- tail=newjob_p
    pure (s.setPool tp_p { tp with jobqueue := { tp.jobqueue with tail := some newjob_p } })

/-- Lines 230-256: returns `job_p` and the new state. -/
def jobqueue_pull (s : Proc) (tp_p : Nat) : Option (Option Nat × Proc) := do
  let tp ← s.pool tp_p
  -- job_p = head
  let job_p := tp.jobqueue.head
  match tp.queued_jobsN with
  | 0 => pure (none, s)
  | 1 =>
    -- tail=NULL; head=NULL
    pure (job_p, s.setPool tp_p { tp with jobqueue := { head := none, tail := none } })
  | _ + 2 =>
    -- head=job_p->next
    let j ← s.deref job_p
    let s := s.setPool tp_p { tp with jobqueue := { tp.jobqueue with head := j.next } }
    -- job_p->next->prev=head
    let s ← s.modJob j.next fun n => { n with prev := j.next }
    pure (job_p, s)

/-- The loop of lines 265-269, with `curjob` the local variable; `none` when
`curjob` is dereferenced while NULL or not allocated, or when the loop has not
left after `fuel` tests of its condition. -/
def jobqueue_empty_while : Nat → Proc → Nat → Option Nat → Option Proc
  | 0, _, _, _ => none
  | fuel + 1, s, tp_p, curjob =>
    match jobqueue_len s tp_p with
    | none => none
    | some len =>
      if len = 0 then some s
      else do
        -- tail=curjob->prev
        let j ← s.deref curjob
        let tp ← s.pool tp_p
        let s := s.setPool tp_p { tp with jobqueue := { tp.jobqueue with tail := j.prev } }
        -- free(curjob)
        let s ← s.free curjob
        -- curjob=tail
        jobqueue_empty_while fuel s tp_p j.prev

/-- Lines 260-274, the loop run with `fuel`. -/
def jobqueue_empty (fuel : Nat) (s : Proc) (tp_p : Nat) : Option Proc := do
  let tp ← s.pool tp_p
  let s ← jobqueue_empty_while fuel s tp_p tp.jobqueue.tail
  let tp ← s.pool tp_p
  -- tail=NULL; head=NULL
  pure (s.setPool tp_p { tp with jobqueue := { head := none, tail := none } })

/-! ## The pool interface (lines 42-181) -/

/-- Outcomes of the four `malloc` calls of `thpool_init`, in program order:
`true` for a non-NULL result. -/
structure InitMem where
  tp_p : Bool
  threads : Bool
  jobqueue : Bool
  queued_jobsN : Bool
deriving DecidableEq, Repr

/-- Every allocation of `thpool_init` succeeds. -/
def InitMem.ok : InitMem :=
  { tp_p := true, threads := true, jobqueue := true, queued_jobsN := true }

/-- The loop of lines 73-76, with `n` the iterations left and `t` the loop
variable; `created t` tells whether the `pthread_create` of iteration `t`
succeeds.  The result of the call is not looked at.  A successful call
creates one thread at the entry of `thpool_thread_do` with argument `tp_p`
and stores its id in `tp_p->threads[t]`; a failed call creates no thread and
leaves `tp_p->threads[t]` indeterminate. -/
def thpool_init_for (created : Nat → Bool) : Nat → Nat → Proc → Nat → Option Proc
  | 0, _, s, _ => some s
  | n + 1, t, s, tp_p => do
    let tp ← s.pool tp_p
    if created t then
      let s := s.setPool tp_p { tp with threads := tp.threads ++ [some s.threads.length] }
      thpool_init_for created n (t + 1)
        { s with threads := s.threads ++ [{ tp_p := tp_p, pc := PC.while_keepalive }] } tp_p
    else
      thpool_init_for created n (t + 1)
        (s.setPool tp_p { tp with threads := tp.threads ++ [none] }) tp_p

/-- Lines 43-79, with `m` the outcomes of the `malloc` calls and `created` the
outcomes of the `pthread_create` calls: returns the pool pointer (`none` for
NULL) and the new state.  A block that is allocated and then leaked on a
failure path is not recorded. -/
def thpool_init (s : Proc) (threadsN : Int) (m : InitMem) (created : Nat → Bool) :
    Option (Option Nat × Proc) :=
  -- if (threadsN<0) threadsN=0
  let threadsN := if threadsN < 0 then 0 else threadsN
  if !m.tp_p then some (none, s)
  else if !m.threads then some (none, s)
  else
    let tp_p := s.pools.length
    let q := jobqueue_init m.jobqueue
    if q.1 = -1 then some (none, s)
    else if !m.queued_jobsN then none   -- sem_init on a NULL pointer
    else
      -- threadsN stored, queue initialised, sem_init(queued_jobsN, 0, 0)
      let tp : thpool_t := { threads := [], threadsN := threadsN, jobqueue := q.2, queued_jobsN := 0 }
      let s := { s with pools := s.pools ++ [some tp] }
      (thpool_init_for created threadsN.toNat 0 s tp_p).map fun s => (some tp_p, s)

/-- Lines 126-147, with `malloc_ok` the outcome of the `malloc`: returns the
`int` result and the new state.  A failed allocation ends the process with
`exit(1)`.  The new job is at the next unused address; `malloc` leaves `next`
and `prev` indeterminate, here NULL: `next` is assigned by `jobqueue_push`
before any read, and `prev` is read only by the loop of `jobqueue_empty`.
The result of `sem_post` is not looked at.  Lines 140-144 hold the mutex. -/
def thpool_add_work (s : Proc) (tp_p : Nat) (function_p arg_p : Nat) (malloc_ok : Bool) :
    Option (Int × Proc) :=
  if !malloc_ok then none
  else do
    let newJob := s.jobs.length
    -- newJob->function=function_p; newJob->arg=arg_p
    let s := { s with jobs := s.jobs ++ [some { function := function_p, arg := arg_p, next := none, prev := none }] }
    let s ← jobqueue_push s tp_p newJob
    -- sem_post(tp_p->queued_jobsN)
    let tp ← s.pool tp_p
    let s := s.setPool tp_p { tp with queued_jobsN := (sem_post tp.queued_jobsN).2 }
    pure (0, s)

/-- One step of worker thread `t` in `thpool_thread_do` (lines 86-122), from
one control point of `PC` to the next.  `none` when the thread cannot step: it
waits on a zero semaphore, it has returned, or the step dereferences a
pointer that is NULL or not allocated. -/
def thpool_thread_do_step (s : Proc) (t : Nat) : Option Proc := do
  let th ← s.threads[t]?
  match th.pc with
  | PC.while_keepalive =>
    pure (s.setPc t (if s.thpool_keepalive ≠ 0 then PC.sem_wait else PC.returned))
  | PC.sem_wait =>
    let tp ← s.pool th.tp_p
    match tp.queued_jobsN with
    | 0 => none
    | v + 1 => pure ((s.setPool th.tp_p { tp with queued_jobsN := v }).setPc t PC.if_keepalive)
  | PC.if_keepalive =>
    pure (s.setPc t (if s.thpool_keepalive ≠ 0 then PC.pull else PC.returned))
  | PC.pull =>
    let r ← jobqueue_pull s th.tp_p
    let s : Proc := { r.2 with log := r.2.log ++ [Event.pull t r.1] }
    pure (s.setPc t (PC.run r.1))
  | PC.run none => pure (s.setPc t PC.while_keepalive)
  | PC.run (some p) =>
    -- func_buff(arg_buff); free(job_p)
    let j ← s.deref (some p)
    let s : Proc := { s with log := s.log ++ [Event.call t p j.function j.arg] }
    let s ← s.free (some p)
    pure (s.setPc t PC.while_keepalive)
  | PC.returned => none

/-- The worker thread `t` runs alone until it cannot step, for at most `fuel`
steps. -/
def thpool_thread_do : Nat → Proc → Nat → Proc
  | 0, s, _ => s
  | fuel + 1, s, t =>
    match thpool_thread_do_step s t with
    | none => s
    | some s1 => thpool_thread_do fuel s1 t

/-- Worker thread `t` is blocked in `sem_wait`: it stands at line 92 and the
semaphore of its pool is zero. -/
def Proc.waiting (s : Proc) (t : Nat) : Bool :=
  match s.threads[t]? with
  | none => false
  | some th => th.pc = PC.sem_wait && jobqueue_len s th.tp_p = some 0

/-- One step of the `d`-th call of `thpool_destroy` (lines 151-181).  `none`
when the call cannot step: it joins a thread that has not returned or an
indeterminate handle, it has returned, or `jobqueue_empty` does not return.
A failing `sem_post` only prints a message.  `sem_destroy` leaves the counter
readable, as `jobqueue_empty` reads it afterwards. -/
def thpool_destroy_step (s : Proc) (d : Nat) : Option Proc := do
  let c ← s.destroys[d]?
  match c.pc with
  | DPC.keepalive =>
    pure (Proc.setDpc { s with thpool_keepalive := 0 } d (DPC.sem_post 0))
  | DPC.sem_post t =>
    let tp ← s.pool c.tp_p
    if (t : Int) < tp.threadsN then
      pure ((s.setPool c.tp_p { tp with queued_jobsN := (sem_post tp.queued_jobsN).2 }).setDpc d
        (DPC.sem_post (t + 1)))
    else pure (s.setDpc d DPC.sem_destroy)
  | DPC.sem_destroy => pure (s.setDpc d (DPC.join 0))
  | DPC.join t =>
    let tp ← s.pool c.tp_p
    if (t : Int) < tp.threadsN then
      let handle ← tp.threads[t]?
      let tid ← handle
      let th ← s.threads[tid]?
      if th.pc = PC.returned then pure (s.setDpc d (DPC.join (t + 1))) else none
    else pure (s.setDpc d DPC.jobqueue_empty)
  | DPC.jobqueue_empty =>
    let s ← jobqueue_empty (s.jobs.length + 1) s c.tp_p
    pure (s.setDpc d DPC.dealloc)
  | DPC.dealloc =>
    pure (Proc.setDpc { s with pools := s.pools.set c.tp_p none } d DPC.returned)
  | DPC.returned => none

/-! ## Interleavings -/

/-- The atomic steps of a run: a whole call of `thpool_init` with successful
allocation and thread creation, a whole call of `thpool_add_work` with
successful allocation, one step of a worker thread,
the entry of a call of `thpool_destroy`, one step of such a call. -/
inductive Action where
  | init (threadsN : Int)
  | add_work (tp_p : Nat) (function_p arg_p : Nat)
  | thread (t : Nat)
  | destroy_call (tp_p : Nat)
  | destroy (d : Nat)
deriving DecidableEq, Repr

/-- The state after one action, when the action can be taken. -/
def step (s : Proc) : Action → Option Proc
  | Action.init n => (thpool_init s n InitMem.ok (fun _ => true)).map fun r => r.2
  | Action.add_work tp_p f a => (thpool_add_work s tp_p f a true).map fun r => r.2
  | Action.thread t => thpool_thread_do_step s t
  | Action.destroy_call tp_p =>
    some { s with destroys := s.destroys ++ [{ tp_p := tp_p, pc := DPC.keepalive }] }
  | Action.destroy d => thpool_destroy_step s d

/-- The state after a schedule, when every action of it can be taken in turn. -/
def exec : Proc → List Action → Option Proc
  | s, [] => some s
  | s, a :: as => (step s a).bind fun s1 => exec s1 as

/-- The call `thpool_destroy(tp_p)` run alone from entry to return, in at most
`fuel` steps; `none` when it does not return. -/
def thpool_destroy_run : Nat → Proc → Nat → Option Proc
  | 0, _, _ => none
  | fuel + 1, s, d =>
    match s.destroys[d]? with
    | none => none
    | some c =>
      if c.pc = DPC.returned then some s
      else (thpool_destroy_step s d).bind fun s1 => thpool_destroy_run fuel s1 d

/-- Lines 151-181 as one call made with no other thread stepping. -/
def thpool_destroy (fuel : Nat) (s : Proc) (tp_p : Nat) : Option Proc :=
  thpool_destroy_run fuel { s with destroys := s.destroys ++ [{ tp_p := tp_p, pc := DPC.keepalive }] }
    s.destroys.length

/-! ## Observations used by the statements -/

/-- The calls `thpool_add_work(tp_p, f, a)` for each `(f, a)` of `js`, in order,
from one thread with no other thread stepping, every allocation succeeding:
the list of the `int` results and the final state. -/
def submit (s : Proc) (tp_p : Nat) : List (Nat × Nat) → Option (List Int × Proc)
  | [] => some ([], s)
  | j :: js =>
    (thpool_add_work s tp_p j.1 j.2 true).bind fun r =>
      (submit r.2 tp_p js).map fun q => (r.1 :: q.1, q.2)

/-- The jobs met by following `next` from `p` until NULL, as
`(address, function, arg)`, for at most `fuel` jobs; `none` when a pointer on
the way is not allocated or the walk has not ended after `fuel` jobs. -/
def walk (jobs : List (Option job_t)) : Nat → Option Nat → Option (List (Nat × Nat × Nat))
  | _, none => some []
  | 0, some _ => none
  | fuel + 1, some p =>
    match (jobs[p]?).join with
    | none => none
    | some j => (walk jobs fuel j.next).map fun r => (p, j.function, j.arg) :: r

/-- The queue of pool `tp_p` read from `head` along `next`: the jobs reached,
provided the last one is the one `tail` points to (both NULL for no job). -/
def jobqueue_list (s : Proc) (tp_p : Nat) : Option (List (Nat × Nat × Nat)) := do
  let tp ← s.pool tp_p
  let l ← walk s.jobs s.jobs.length tp.jobqueue.head
  if (l.getLast?).map (fun x => x.1) = tp.jobqueue.tail then some l else none

/-- The job function calls recorded in a log, in order, as `(function, arg)`. -/
def calls : List Event → List (Nat × Nat)
  | [] => []
  | Event.call _ _ f a :: l => (f, a) :: calls l
  | Event.pull _ _ :: l => calls l

/-- The number of job function calls that thread `t` made in a log. -/
def callsBy (t : Nat) : List Event → Nat
  | [] => 0
  | Event.call u _ _ _ :: l => (if u = t then 1 else 0) + callsBy t l
  | Event.pull _ _ :: l => callsBy t l

/-- Whether a worker at this control point has read the flag as alive after
its wake (line 97) and has not yet called the job function (line 112): it
stands at the pull, or holds a non-NULL `job_p`.  Counts 1 if so, else 0. -/
def PC.inFlight : PC → Nat
  | PC.pull => 1
  | PC.run (some _) => 1
  | _ => 0

/-- The count `PC.inFlight` for worker thread `t` of state `s`; 0 when there
is no thread `t`. -/
def inFlight (s : Proc) (t : Nat) : Nat :=
  match s.threads[t]? with
  | some th => th.pc.inFlight
  | none => 0

/-- The control skeleton of `thpool_thread_do`: with the flag reading `k`,
thread `u` at the first control point moves to the second and appends the
given events to the record. -/
inductive Moves (u : Nat) (k : Int) : PC → PC → List Event → Prop where
  | while_alive : k ≠ 0 → Moves u k PC.while_keepalive PC.sem_wait []
  | while_stop : k = 0 → Moves u k PC.while_keepalive PC.returned []
  | wake : Moves u k PC.sem_wait PC.if_keepalive []
  | if_alive : k ≠ 0 → Moves u k PC.if_keepalive PC.pull []
  | if_stop : k = 0 → Moves u k PC.if_keepalive PC.returned []
  | pull (r : Option Nat) : Moves u k PC.pull (PC.run r) [Event.pull u r]
  | skip : Moves u k (PC.run none) PC.while_keepalive []
  | call (p f a : Nat) : Moves u k (PC.run (some p)) PC.while_keepalive [Event.call u p f a]

/-- The action is a step of the `d`-th call of `thpool_destroy` or a step of a
worker thread whose pool is `A`. -/
def Action.ofPool (s : Proc) (A d : Nat) : Action → Bool
  | Action.destroy d1 => d1 = d
  | Action.thread t => (s.threads[t]?).map (fun th => th.tp_p) = some A
  | _ => false

/-- The flag, the threads, the record and the calls of `thpool_destroy` in
progress of `s1` are those of `s`. -/
def Same (s s1 : Proc) : Prop :=
  s1.thpool_keepalive = s.thpool_keepalive ∧ s1.threads = s.threads ∧ s1.log = s.log
    ∧ s1.destroys = s.destroys

/-! ## The threads `thpool_init` creates -/

/-- The handles that the loop of lines 73-76 stores in `tp_p->threads` in its
`n` iterations from loop variable `t` on, when the next thread gets id `a`:
the id of the new thread after a successful `pthread_create`, an
indeterminate handle after a failed one. -/
def handles (created : Nat → Bool) : Nat → Nat → Nat → List (Option Nat)
  | _, _, 0 => []
  | a, t, n + 1 =>
    if created t then some a :: handles created (a + 1) (t + 1) n
    else none :: handles created a (t + 1) n

/-- The number of successful `pthread_create` calls among the `n` iterations
from loop variable `t` on. -/
def started (created : Nat → Bool) : Nat → Nat → Nat
  | _, 0 => 0
  | t, n + 1 => started created (t + 1) n + (if created t then 1 else 0)

/-! ## The queue as `thpool_add_work` builds it -/

/-- The cells that `thpool_add_work` leaves for the jobs `js` submitted in this
order to an empty queue, the first at address `a`: each cell points with
`next` to the following address, the last with NULL, and with `prev` to the
address before it, the first with `pv`. -/
def cells (a : Nat) (pv : Option Nat) : List (Nat × Nat) → List (Option job_t)
  | [] => []
  | [j] => [some { function := j.1, arg := j.2, next := none, prev := pv }]
  | j :: j2 :: js =>
    some { function := j.1, arg := j.2, next := some (a + 1), prev := pv }
      :: cells (a + 1) (some a) (j2 :: js)

/-- The state `s0` with the jobs `js` queued in pool `tp_p` (whose other
fields are those of `tp0`): the cells after the jobs of `s0`, `head` at the
first, `tail` at the last, the semaphore at their number or, for more than
`SEM_VALUE_MAX` jobs, at `SEM_VALUE_MAX`. -/
def queued (s0 : Proc) (tp_p : Nat) (tp0 : thpool_t) (js : List (Nat × Nat)) : Proc :=
  { s0 with
    jobs := s0.jobs ++ cells s0.jobs.length none js
    pools := s0.pools.set tp_p (some { tp0 with
      jobqueue := {
        head := if js = [] then none else some s0.jobs.length
        tail := if js = [] then none else some (s0.jobs.length + js.length - 1) }
      queued_jobsN := min js.length SEM_VALUE_MAX }) }

/-- The state `s0` in which pool `tp_p` (other fields those of `tp0`) has
queue pointers `q` and semaphore value `sem`, the job memory is `J`, worker
thread `t` of that pool stands at `pc`, and the record is `L`. -/
def working (s0 : Proc) (tp_p t : Nat) (tp0 : thpool_t) (J : List (Option job_t))
    (q : thpool_jobqueue) (sem : Nat) (pc : PC) (L : List Event) : Proc :=
  { s0 with
    jobs := J
    pools := s0.pools.set tp_p (some { tp0 with jobqueue := q, queued_jobsN := sem })
    threads := s0.threads.set t { tp_p := tp_p, pc := pc }
    log := L }

/-- The record a worker `t` leaves when it pulls and calls, one after the
other, the jobs `js` stored from address `a` on. -/
def worklog (t : Nat) (a : Nat) : List (Nat × Nat) → List Event
  | [] => []
  | j :: js => Event.pull t (some a) :: Event.call t a j.1 j.2 :: worklog t (a + 1) js

/-- The jobs `js` with their addresses, the first at `a`. -/
def addressed (a : Nat) : List (Nat × Nat) → List (Nat × Nat × Nat)
  | [] => []
  | j :: js => (a, j.1, j.2) :: addressed (a + 1) js

/-! ## Runs used as concrete inputs -/

/-- A pool with one worker and one submitted job; the worker then runs until
it waits again: loop test, `sem_wait`, flag test, pull, job test, loop test. -/
def run_one_job : List Action :=
  [Action.init 1, Action.add_work 0 1 10,
   Action.thread 0, Action.thread 0, Action.thread 0, Action.thread 0, Action.thread 0,
   Action.thread 0]

/-- A pool with one worker and the jobs J1 = (1, 10), J2 = (2, 20), J3 = (3, 30)
submitted from one thread before the worker's first step. -/
def run_three_jobs : List Action :=
  [Action.init 1, Action.add_work 0 1 10, Action.add_work 0 2 20, Action.add_work 0 3 30]

/-- One submit and one pop: a pool with one worker, one job submitted, then
the worker's loop test, `sem_wait`, flag test and pull. -/
def run_submit_pop : List Action :=
  [Action.init 1, Action.add_work 0 1 10,
   Action.thread 0, Action.thread 0, Action.thread 0, Action.thread 0]

/-- A pool with one worker holding `k` = 1 job, the worker past its
`sem_wait` and flag test, about to call `jobqueue_pull`. -/
def run_before_pull_1 : List Action :=
  [Action.init 1, Action.add_work 0 1 10, Action.thread 0, Action.thread 0, Action.thread 0]

/-- The same with `k` = 2 jobs. -/
def run_before_pull_2 : List Action :=
  [Action.init 1, Action.add_work 0 1 10, Action.add_work 0 2 20,
   Action.thread 0, Action.thread 0, Action.thread 0]

/-- A pool without workers and one submitted job. -/
def run_zero_workers_one_job : List Action :=
  [Action.init 0, Action.add_work 0 1 10]

/-- A pool with one worker and two queued jobs; the worker passes its loop
test, its `sem_wait` and its flag test; then `thpool_destroy` is entered and
writes the flag. -/
def run_flag_written : List Action :=
  [Action.init 1, Action.add_work 0 1 10, Action.add_work 0 2 20,
   Action.thread 0, Action.thread 0, Action.thread 0,
   Action.destroy_call 0, Action.destroy 0]

/-- Pool A (address 0) with its worker (thread 0) and pool B (address 1) with
its worker (thread 1); each worker takes its loop test of line 90 and is idle
in `sem_wait`. -/
def run_two_pools : List Action :=
  [Action.init 1, Action.init 1, Action.thread 0, Action.thread 1]

/-- The steps of the call `thpool_destroy(A)` after its entry, interleaved with
the steps of A's worker: the write of line 155, the post loop of lines
158-162, `sem_destroy`, the entry of the join loop; A's worker wakes and
reads the flag at line 97; then the join, `jobqueue_empty`, the
deallocation and the return. -/
def run_destroy_A : List Action :=
  [Action.destroy 0, Action.destroy 0, Action.destroy 0, Action.destroy 0,
   Action.thread 0, Action.thread 0,
   Action.destroy 0, Action.destroy 0, Action.destroy 0, Action.destroy 0]

/-- Two jobs submitted to pool B. -/
def run_submit_B : List Action :=
  [Action.add_work 1 1 10, Action.add_work 1 2 20]

/-- The state of `run_flag_written` just before the write of line 155: the
worker has read the flag as alive at line 97 and stands at the pull, and a
call `thpool_destroy(0)` has been entered. -/
def before_write : Proc :=
  (exec Proc.start
    [Action.init 1, Action.add_work 0 1 10, Action.add_work 0 2 20,
     Action.thread 0, Action.thread 0, Action.thread 0, Action.destroy_call 0]).getD Proc.start

/-- The state right after `thpool_destroy` has written the flag. -/
def after_write : Proc :=
  (thpool_destroy_step before_write 0).getD Proc.start

/-- The state after the worker's next two steps, the pull and the call. -/
def after_call : Proc :=
  (exec after_write [Action.thread 0, Action.thread 0]).getD Proc.start

/-- The state after `run_two_pools`. -/
def two_pools : Proc :=
  (exec Proc.start run_two_pools).getD Proc.start

/-- The state after the call `thpool_destroy(A)` of `run_destroy_A` has
returned. -/
def two_pools_destroyed : Proc :=
  (exec two_pools (Action.destroy_call 0 :: run_destroy_A)).getD Proc.start
/-! ## Memory lemmas -/

theorem set_of_getElem? {α : Type} : ∀ (l : List α) (i : Nat) (x : α), l[i]? = some x → l.set i x = l
  | [], _, _, h => by simp at h
  | a :: l, 0, x, h => by simp at h; simp [h]
  | a :: l, i + 1, x, h => by
    simp at h
    simp [set_of_getElem? l i x h]

theorem pool_lt {s : Proc} {tp_p : Nat} {tp : thpool_t} (h : s.pool tp_p = some tp) :
    tp_p < s.pools.length := by
  unfold Proc.pool at h
  by_contra hc
  rw [List.getElem?_eq_none (by omega)] at h
  simp at h

theorem thpool_init_for_eq (created : Nat → Bool) (n : Nat) :
    ∀ (t : Nat) (s : Proc) (tp_p : Nat) (tp : thpool_t), s.pool tp_p = some tp →
    thpool_init_for created n t s tp_p = some { s with
      pools := s.pools.set tp_p (some { tp with
        threads := tp.threads ++ handles created s.threads.length t n })
      threads := s.threads ++
        List.replicate (started created t n) { tp_p := tp_p, pc := PC.while_keepalive } } := by
  induction n with
  | zero =>
    intro t s tp_p tp h
    have hlt := pool_lt h
    unfold Proc.pool at h
    simp only [thpool_init_for, handles, started, List.append_nil, List.replicate_zero]
    congr 1
    cases s
    simp only [Proc.mk.injEq, true_and, and_true] at *
    rw [List.getElem?_eq_getElem hlt] at h
    simp at h
    exact (set_of_getElem? _ _ _ (by simp [hlt, h])).symm
  | succ n ih =>
    intro t s tp_p tp h
    have hlt := pool_lt h
    simp only [thpool_init_for, h, Option.bind_eq_bind, Option.some_bind]
    cases hc : created t with
    | true =>
      simp only [if_true]
      rw [ih (t + 1) _ tp_p { tp with threads := tp.threads ++ [some s.threads.length] }]
      · simp [Proc.setPool, handles, started, hc, List.replicate_succ]
      · simp [Proc.pool, Proc.setPool, hlt]
    | false =>
      simp only [Bool.false_eq_true, if_false]
      rw [ih (t + 1) _ tp_p { tp with threads := tp.threads ++ [none] }]
      · simp [Proc.setPool, handles, started, hc]
      · simp [Proc.pool, Proc.setPool, hlt]

theorem started_all (n : Nat) : ∀ t, started (fun _ => true) t n = n := by
  induction n with
  | zero => intro t; rfl
  | succ n ih => intro t; simp [started, ih]

theorem handles_all (n : Nat) : ∀ a t,
    handles (fun _ => true) a t n = (List.range' a n).map some := by
  induction n with
  | zero => intro a t; rfl
  | succ n ih => intro a t; simp [handles, ih, List.range'_succ]

theorem handles_length (created : Nat → Bool) (n : Nat) : ∀ a t,
    (handles created a t n).length = n := by
  induction n with
  | zero => intro a t; rfl
  | succ n ih =>
    intro a t
    by_cases hc : created t = true <;> simp [handles, hc, ih]

theorem started_le (created : Nat → Bool) (n : Nat) : ∀ t, started created t n ≤ n := by
  induction n with
  | zero => intro t; exact Nat.le_refl _
  | succ n ih =>
    intro t
    have := ih (t + 1)
    by_cases hc : created t = true <;> simp [started, hc] <;> omega

theorem cells_length : ∀ (js : List (Nat × Nat)) (a : Nat) (pv : Option Nat),
    (cells a pv js).length = js.length
  | [], _, _ => rfl
  | [_], _, _ => rfl
  | _ :: j2 :: js, a, pv => by
    simp [cells, cells_length (j2 :: js)]

theorem cells_last : ∀ (js : List (Nat × Nat)) (j : Nat × Nat) (a : Nat) (pv : Option Nat),
    (cells a pv (js ++ [j]))[js.length]? = some (some
      { function := j.1, arg := j.2, next := none,
        prev := if js = [] then pv else some (a + js.length - 1) })
  | [], _, _, _ => by simp [cells]
  | [j1], j, a, pv => by simp [cells]
  | j1 :: j2 :: js, j, a, pv => by
    have := cells_last (j2 :: js) j (a + 1) (some a)
    simp [cells] at this ⊢
    rw [this]
    simp
    omega

theorem cells_snoc : ∀ (js : List (Nat × Nat)) (j x : Nat × Nat) (a : Nat) (pv : Option Nat),
    (cells a pv (js ++ [j])).set js.length (some
        { function := j.1, arg := j.2, next := some (a + js.length + 1),
          prev := if js = [] then pv else some (a + js.length - 1) })
      ++ [some { function := x.1, arg := x.2, next := none, prev := some (a + js.length) }]
    = cells a pv (js ++ [j] ++ [x])
  | [], _, _, _, _ => by simp [cells]
  | [j1], j, x, a, pv => by simp [cells]
  | j1 :: j2 :: js, j, x, a, pv => by
    have := cells_snoc (j2 :: js) j x (a + 1) (some a)
    simp [cells] at this ⊢
    rw [← this]
    have e1 : a + (js.length + 1 + 1) + 1 = a + 1 + (js.length + 1) + 1 := by omega
    have e2 : a + (js.length + 1) = a + 1 + js.length := by omega
    have e3 : a + (js.length + 1 + 1) = a + 1 + (js.length + 1) := by omega
    rw [e1, e2, e3]

theorem getElem?_append_add {α : Type} (l r : List α) (i : Nat) :
    (l ++ r)[l.length + i]? = r[i]? := by
  rw [List.getElem?_append_right (by omega)]
  simp

theorem deref_some (s : Proc) (a : Nat) : s.deref (some a) = (s.jobs[a]?).join := rfl

theorem modJob_of_deref {s : Proc} {a : Nat} {j : job_t} (f : job_t → job_t)
    (h : (s.jobs[a]?).join = some j) :
    s.modJob (some a) f = some { s with jobs := s.jobs.set a (some (f j)) } := by
  simp only [Proc.modJob, deref_some, h]

theorem free_of_deref {s : Proc} {a : Nat} {j : job_t} (h : (s.jobs[a]?).join = some j) :
    s.free (some a) = some { s with jobs := s.jobs.set a none } := by
  simp only [Proc.free, deref_some, h]

theorem join_of_getElem? {α : Type} {l : List (Option α)} {i : Nat} {x : α}
    (h : l[i]? = some (some x)) : (l[i]?).join = some x := by
  rw [h]; rfl

theorem jobqueue_push_zero {s : Proc} {tp_p newjob_p : Nat} {tp : thpool_t} {nj : job_t}
    (hp : s.pool tp_p = some tp) (hv : tp.queued_jobsN = 0)
    (hn : s.jobs[newjob_p]? = some (some nj)) :
    jobqueue_push s tp_p newjob_p = some { s with
      jobs := s.jobs.set newjob_p (some { nj with next := none })
      pools := s.pools.set tp_p (some { tp with
        jobqueue := { head := some newjob_p, tail := some newjob_p } }) } := by
  have hp1 : Proc.pool { s with jobs := s.jobs.set newjob_p (some { nj with next := none }) } tp_p
      = some tp := hp
  simp only [jobqueue_push, modJob_of_deref _ (join_of_getElem? hn), Option.bind_eq_bind,
    Option.some_bind, hp1]
  rw [hv]
  rfl

theorem jobqueue_push_succ {s : Proc} {tp_p newjob_p tl v : Nat} {tp : thpool_t} {nj tj : job_t}
    (hp : s.pool tp_p = some tp) (hv : tp.queued_jobsN = v + 1)
    (ht : tp.jobqueue.tail = some tl)
    (hn : s.jobs[newjob_p]? = some (some nj)) (hj : s.jobs[tl]? = some (some tj))
    (hne : tl ≠ newjob_p) :
    jobqueue_push s tp_p newjob_p = some { s with
      jobs := (s.jobs.set tl (some { tj with next := some newjob_p })).set newjob_p
        (some { nj with next := none, prev := some tl })
      pools := s.pools.set tp_p (some { tp with
        jobqueue := { tp.jobqueue with tail := some newjob_p } }) } := by
  have hp1 : Proc.pool { s with jobs := s.jobs.set newjob_p (some { nj with next := none }) } tp_p
      = some tp := hp
  have hlt : newjob_p < s.jobs.length := by
    by_contra hc
    rw [List.getElem?_eq_none (by omega)] at hn
    simp at hn
  simp only [jobqueue_push, modJob_of_deref _ (join_of_getElem? hn), Option.bind_eq_bind,
    Option.some_bind, hp1]
  rw [hv]
  simp only [ht]
  have h2 : (((s.jobs.set newjob_p (some { nj with next := none }))[tl]?).join) = some tj := by
    rw [List.getElem?_set_ne (Ne.symm hne), hj]; rfl
  rw [modJob_of_deref (s := { s with jobs := s.jobs.set newjob_p (some { nj with next := none }) }) _ h2]
  simp only [Option.some_bind]
  have h3 : ((((s.jobs.set newjob_p (some { nj with next := none })).set tl
      (some { tj with next := some newjob_p }))[newjob_p]?).join)
      = some { nj with next := none } := by
    rw [List.getElem?_set_ne hne, List.getElem?_set_self hlt]; rfl
  rw [modJob_of_deref _ h3]
  simp only [Option.some_bind, Option.pure_def, Proc.setPool]
  congr 2
  rw [List.set_comm _ _ _ (Ne.symm hne), List.set_set, List.set_comm _ _ _ hne]

theorem pool_set_self (s : Proc) (tp_p : Nat) (tp : thpool_t) (J : List (Option job_t))
    (h : tp_p < s.pools.length) :
    Proc.pool { s with jobs := J, pools := s.pools.set tp_p (some tp) } tp_p = some tp := by
  simp [Proc.pool, h]

theorem SEM_VALUE_MAX_pos : 0 < SEM_VALUE_MAX := by decide

theorem sem_post_min (n : Nat) :
    (sem_post (min n SEM_VALUE_MAX)).2 = min (n + 1) SEM_VALUE_MAX := by
  unfold sem_post
  split <;> simp only <;> omega

theorem thpool_add_work_queued (s0 : Proc) (tp_p : Nat) (tp0 : thpool_t) (js : List (Nat × Nat))
    (f x : Nat) (h : tp_p < s0.pools.length) :
    thpool_add_work (queued s0 tp_p tp0 js) tp_p f x true
      = some (0, queued s0 tp_p tp0 (js ++ [(f, x)])) := by
  have hpos := SEM_VALUE_MAX_pos
  rcases List.eq_nil_or_concat js with rfl | ⟨js1, j, hjs⟩
  · simp only [thpool_add_work, queued, cells, List.append_nil, Bool.not_true, Bool.false_eq_true,
      if_false, if_true, List.length_nil]
    rw [jobqueue_push_zero (pool_set_self _ _ _ _ h) (by simp) (List.getElem?_concat_length _ _)]
    have e := sem_post_min 0
    simp only [Nat.zero_min] at e
    simp [Proc.pool, Proc.setPool, h, cells, e]
  · rw [List.concat_eq_append] at hjs
    subst hjs
    have hl := cells_last js1 j s0.jobs.length none
    have hs := cells_snoc js1 j (f, x) s0.jobs.length none
    have e := sem_post_min (js1.length + 1)
    simp only [thpool_add_work, queued, Bool.not_true, Bool.false_eq_true, if_false]
    rw [@jobqueue_push_succ _ _ _ (s0.jobs.length + js1.length)
      (min (js1 ++ [j]).length SEM_VALUE_MAX - 1) _ _ _ (pool_set_self _ _ _ _ h)
      (by simp; omega) (by simp) (List.getElem?_concat_length _ _)
      (by rw [List.getElem?_append_left (by simp [cells_length]), getElem?_append_add, hl])
      (by simp [cells_length])]
    simp only [List.append_assoc, List.singleton_append, Nat.add_assoc] at hs
    simp [Proc.pool, Proc.setPool, h, cells_length, e, hs]

theorem queued_nil {s : Proc} {tp_p : Nat} {tp : thpool_t} (hp : s.pool tp_p = some tp)
    (hq : tp.jobqueue = { head := none, tail := none }) (hv : tp.queued_jobsN = 0) :
    queued s tp_p tp [] = s := by
  have hlt := pool_lt hp
  unfold Proc.pool at hp
  cases s
  cases tp
  simp only [queued, cells, List.append_nil, if_true, List.length_nil, Proc.mk.injEq, true_and,
    and_true, Nat.zero_min] at *
  subst hq hv
  apply set_of_getElem?
  rw [List.getElem?_eq_getElem hlt] at hp ⊢
  simp at hp
  rw [hp]

theorem submit_queued (s0 : Proc) (tp_p : Nat) (tp0 : thpool_t) (h : tp_p < s0.pools.length) :
    ∀ (js1 js : List (Nat × Nat)),
      submit (queued s0 tp_p tp0 js) tp_p js1
        = some (List.replicate js1.length 0, queued s0 tp_p tp0 (js ++ js1))
  | [], js => by simp [submit]
  | j :: js1, js => by
    simp only [submit, thpool_add_work_queued s0 tp_p tp0 js j.1 j.2 h, Option.some_bind,
      submit_queued s0 tp_p tp0 h js1 (js ++ [j]), Option.map_some']
    simp [List.replicate_succ]

theorem jobqueue_pull_zero {s : Proc} {tp_p : Nat} {tp : thpool_t}
    (hp : s.pool tp_p = some tp) (hv : tp.queued_jobsN = 0) :
    jobqueue_pull s tp_p = some (none, s) := by
  simp only [jobqueue_pull, hp, Option.bind_eq_bind, Option.some_bind]
  rw [hv]
  rfl

theorem jobqueue_pull_one {s : Proc} {tp_p : Nat} {tp : thpool_t}
    (hp : s.pool tp_p = some tp) (hv : tp.queued_jobsN = 1) :
    jobqueue_pull s tp_p = some (tp.jobqueue.head,
      s.setPool tp_p { tp with jobqueue := { head := none, tail := none } }) := by
  simp only [jobqueue_pull, hp, Option.bind_eq_bind, Option.some_bind]
  rw [hv]
  rfl

theorem jobqueue_pull_many {s : Proc} {tp_p a n v : Nat} {tp : thpool_t} {j nj : job_t}
    (hp : s.pool tp_p = some tp) (hv : tp.queued_jobsN = v + 2)
    (hh : tp.jobqueue.head = some a) (hj : s.jobs[a]? = some (some j))
    (hn : j.next = some n) (hnj : s.jobs[n]? = some (some nj)) :
    jobqueue_pull s tp_p = some (some a, { s with
      jobs := s.jobs.set n (some { nj with prev := some n })
      pools := s.pools.set tp_p (some { tp with
        jobqueue := { tp.jobqueue with head := some n } }) }) := by
  simp only [jobqueue_pull, hp, Option.bind_eq_bind, Option.some_bind]
  rw [hv]
  simp only [hh, deref_some, join_of_getElem? hj, Option.some_bind, hn, Proc.setPool]
  rw [modJob_of_deref _ (by exact join_of_getElem? hnj)]
  rfl

/-! ## The worker's steps on a known state -/

theorem modify_set_self {α : Type} (f : α → α) : ∀ (l : List α) (n : Nat) (x : α),
    List.modify f n (l.set n x) = l.set n (f x)
  | [], _, _ => by simp
  | a :: l, 0, x => by simp
  | a :: l, n + 1, x => by simp [modify_set_self f l n x]

theorem setPc_working (s0 : Proc) (tp_p t : Nat) (tp0 : thpool_t) (J : List (Option job_t))
    (q : thpool_jobqueue) (sem : Nat) (pc pc1 : PC) (L : List Event) :
    (working s0 tp_p t tp0 J q sem pc L).setPc t pc1 = working s0 tp_p t tp0 J q sem pc1 L := by
  simp [Proc.setPc, working, modify_set_self]

theorem thread_working (s0 : Proc) (tp_p t : Nat) (tp0 : thpool_t) (J : List (Option job_t))
    (q : thpool_jobqueue) (sem : Nat) (pc : PC) (L : List Event) (ht : t < s0.threads.length) :
    (working s0 tp_p t tp0 J q sem pc L).threads[t]? = some { tp_p := tp_p, pc := pc } := by
  simp [working, ht]

theorem pool_working (s0 : Proc) (tp_p t : Nat) (tp0 : thpool_t) (J : List (Option job_t))
    (q : thpool_jobqueue) (sem : Nat) (pc : PC) (L : List Event) (hp : tp_p < s0.pools.length) :
    (working s0 tp_p t tp0 J q sem pc L).pool tp_p
      = some { tp0 with jobqueue := q, queued_jobsN := sem } := by
  simp [working, Proc.pool, hp]

theorem step_while (s0 : Proc) (tp_p t : Nat) (tp0 : thpool_t)
    (J : List (Option job_t)) (q : thpool_jobqueue) (L : List Event) (sem : Nat) (ht : t < s0.threads.length) (hk : s0.thpool_keepalive ≠ 0) :
    thpool_thread_do_step (working s0 tp_p t tp0 J q sem PC.while_keepalive L) t
      = some (working s0 tp_p t tp0 J q sem PC.sem_wait L) := by
  simp only [thpool_thread_do_step, thread_working _ _ _ _ _ _ _ _ _ ht, Option.bind_eq_bind,
    Option.some_bind, setPc_working]
  have : (working s0 tp_p t tp0 J q sem PC.while_keepalive L).thpool_keepalive ≠ 0 := hk
  simp [this]

theorem step_if (s0 : Proc) (tp_p t : Nat) (tp0 : thpool_t)
    (J : List (Option job_t)) (q : thpool_jobqueue) (L : List Event) (sem : Nat) (ht : t < s0.threads.length) (hk : s0.thpool_keepalive ≠ 0) :
    thpool_thread_do_step (working s0 tp_p t tp0 J q sem PC.if_keepalive L) t
      = some (working s0 tp_p t tp0 J q sem PC.pull L) := by
  simp only [thpool_thread_do_step, thread_working _ _ _ _ _ _ _ _ _ ht, Option.bind_eq_bind,
    Option.some_bind, setPc_working]
  have : (working s0 tp_p t tp0 J q sem PC.if_keepalive L).thpool_keepalive ≠ 0 := hk
  simp [this]

theorem step_sem_wait (s0 : Proc) (tp_p t : Nat) (tp0 : thpool_t)
    (J : List (Option job_t)) (q : thpool_jobqueue) (L : List Event) (v : Nat) (ht : t < s0.threads.length) (hp : tp_p < s0.pools.length) :
    thpool_thread_do_step (working s0 tp_p t tp0 J q (v + 1) PC.sem_wait L) t
      = some (working s0 tp_p t tp0 J q v PC.if_keepalive L) := by
  simp only [thpool_thread_do_step, thread_working _ _ _ _ _ _ _ _ _ ht, Option.bind_eq_bind,
    Option.some_bind, pool_working _ _ _ _ _ _ _ _ _ hp]
  simp [Proc.setPc, Proc.setPool, working, modify_set_self]

theorem step_sem_wait_zero (s0 : Proc) (tp_p t : Nat) (tp0 : thpool_t)
    (J : List (Option job_t)) (q : thpool_jobqueue) (L : List Event) (ht : t < s0.threads.length) (hp : tp_p < s0.pools.length) :
    thpool_thread_do_step (working s0 tp_p t tp0 J q 0 PC.sem_wait L) t = none := by
  simp only [thpool_thread_do_step, thread_working _ _ _ _ _ _ _ _ _ ht, Option.bind_eq_bind,
    Option.some_bind, pool_working _ _ _ _ _ _ _ _ _ hp]

theorem step_pull_zero (s0 : Proc) (tp_p t : Nat) (tp0 : thpool_t)
    (J : List (Option job_t)) (q : thpool_jobqueue) (L : List Event) (ht : t < s0.threads.length) (hp : tp_p < s0.pools.length) :
    thpool_thread_do_step (working s0 tp_p t tp0 J q 0 PC.pull L) t
      = some (working s0 tp_p t tp0 J q 0 (PC.run none) (L ++ [Event.pull t none])) := by
  simp only [thpool_thread_do_step, thread_working _ _ _ _ _ _ _ _ _ ht, Option.bind_eq_bind,
    Option.some_bind, jobqueue_pull_zero (pool_working _ _ _ _ _ _ _ _ _ hp) rfl]
  simp [Proc.setPc, working, modify_set_self]

theorem step_pull_one (s0 : Proc) (tp_p t : Nat) (tp0 : thpool_t)
    (J : List (Option job_t)) (q : thpool_jobqueue) (L : List Event) (ht : t < s0.threads.length) (hp : tp_p < s0.pools.length) :
    thpool_thread_do_step (working s0 tp_p t tp0 J q 1 PC.pull L) t
      = some (working s0 tp_p t tp0 J { head := none, tail := none } 1 (PC.run q.head)
          (L ++ [Event.pull t q.head])) := by
  simp only [thpool_thread_do_step, thread_working _ _ _ _ _ _ _ _ _ ht, Option.bind_eq_bind,
    Option.some_bind, jobqueue_pull_one (pool_working _ _ _ _ _ _ _ _ _ hp) rfl]
  simp [Proc.setPc, Proc.setPool, working, modify_set_self]

theorem step_pull_many (s0 : Proc) (tp_p t : Nat) (tp0 : thpool_t)
    (J : List (Option job_t)) (L : List Event) (v a n : Nat) (tl : Option Nat) (j nj : job_t)
    (ht : t < s0.threads.length) (hp : tp_p < s0.pools.length)
    (hj : J[a]? = some (some j)) (hn : j.next = some n) (hnj : J[n]? = some (some nj)) :
    thpool_thread_do_step (working s0 tp_p t tp0 J { head := some a, tail := tl } (v + 2) PC.pull L) t
      = some (working s0 tp_p t tp0 (J.set n (some { nj with prev := some n }))
          { head := some n, tail := tl } (v + 2) (PC.run (some a)) (L ++ [Event.pull t (some a)])) := by
  simp only [thpool_thread_do_step, thread_working _ _ _ _ _ _ _ _ _ ht, Option.bind_eq_bind,
    Option.some_bind]
  rw [jobqueue_pull_many (pool_working _ _ _ _ _ _ _ _ _ hp) rfl rfl hj hn hnj]
  simp [Proc.setPc, working, modify_set_self]

theorem step_run_none (s0 : Proc) (tp_p t : Nat) (tp0 : thpool_t)
    (J : List (Option job_t)) (q : thpool_jobqueue) (L : List Event) (sem : Nat) (ht : t < s0.threads.length) :
    thpool_thread_do_step (working s0 tp_p t tp0 J q sem (PC.run none) L) t
      = some (working s0 tp_p t tp0 J q sem PC.while_keepalive L) := by
  simp only [thpool_thread_do_step, thread_working _ _ _ _ _ _ _ _ _ ht, Option.bind_eq_bind,
    Option.some_bind, setPc_working]
  rfl

theorem step_run_some (s0 : Proc) (tp_p t : Nat) (tp0 : thpool_t)
    (J : List (Option job_t)) (q : thpool_jobqueue) (L : List Event) (sem p : Nat) (j : job_t) (ht : t < s0.threads.length)
    (hj : J[p]? = some (some j)) :
    thpool_thread_do_step (working s0 tp_p t tp0 J q sem (PC.run (some p)) L) t
      = some (working s0 tp_p t tp0 (J.set p none) q sem PC.while_keepalive
          (L ++ [Event.call t p j.function j.arg])) := by
  have hd : (working s0 tp_p t tp0 J q sem (PC.run (some p)) L).deref (some p) = some j :=
    join_of_getElem? hj
  simp only [thpool_thread_do_step, thread_working _ _ _ _ _ _ _ _ _ ht, Option.bind_eq_bind,
    Option.some_bind, hd]
  rw [free_of_deref (j := j) (by exact join_of_getElem? hj)]
  simp [Proc.setPc, working, modify_set_self]

theorem thpool_thread_do_succ {s s1 : Proc} {t : Nat} (fuel : Nat)
    (h : thpool_thread_do_step s t = some s1) :
    thpool_thread_do (fuel + 1) s t = thpool_thread_do fuel s1 t := by
  simp only [thpool_thread_do, h]

theorem thpool_thread_do_none {s : Proc} {t : Nat} (fuel : Nat)
    (h : thpool_thread_do_step s t = none) :
    thpool_thread_do fuel s t = s := by
  cases fuel <;> simp only [thpool_thread_do, h]

theorem getElem?_at_length {α : Type} (D r : List α) (c : α) :
    (D ++ c :: r)[D.length]? = some c := by
  have := getElem?_append_add D (c :: r) 0
  simpa using this

theorem getElem?_at_length_succ {α : Type} (D r : List α) (c c2 : α) :
    (D ++ c :: c2 :: r)[D.length + 1]? = some c2 := by
  have := getElem?_append_add D (c :: c2 :: r) 1
  simpa using this

theorem set_at_length {α : Type} (D r : List α) (c x : α) :
    (D ++ c :: r).set D.length x = D ++ x :: r := by
  simp

theorem set_at_length_succ {α : Type} (D r : List α) (c c2 x : α) :
    (D ++ c :: c2 :: r).set (D.length + 1) x = D ++ c :: x :: r := by
  simp

theorem cells_cons (a : Nat) (pv : Option Nat) (j : Nat × Nat) (js : List (Nat × Nat)) :
    cells a pv (j :: js)
      = some { function := j.1, arg := j.2, next := if js = [] then none else some (a + 1),
               prev := pv } :: cells (a + 1) (some a) js := by
  cases js <;> simp [cells]

/-- One full turn of the loop with at least two jobs linked and the semaphore
at three or more. -/
theorem turn_many (s0 : Proc) (tp_p t : Nat) (tp0 : thpool_t) (D : List (Option job_t))
    (pv tl : Option Nat) (j1 j2 : Nat × Nat) (js : List (Nat × Nat)) (L : List Event)
    (fuel v : Nat)
    (ht : t < s0.threads.length) (hp : tp_p < s0.pools.length) (hk : s0.thpool_keepalive ≠ 0) :
    thpool_thread_do (fuel + 5)
      (working s0 tp_p t tp0 (D ++ cells D.length pv (j1 :: j2 :: js))
        { head := some D.length, tail := tl } (v + 3) PC.while_keepalive L) t
    = thpool_thread_do fuel
      (working s0 tp_p t tp0
        ((D ++ [none]) ++ cells (D ++ [none]).length (some (D ++ [none]).length) (j2 :: js))
        { head := some (D ++ [none]).length, tail := tl } (v + 2) PC.while_keepalive
        (L ++ [Event.pull t (some D.length), Event.call t D.length j1.1 j1.2])) t := by
  rw [thpool_thread_do_succ _ (step_while _ _ _ _ _ _ _ _ ht hk),
    thpool_thread_do_succ _ (step_sem_wait _ _ _ _ _ _ _ _ ht hp),
    thpool_thread_do_succ _ (step_if _ _ _ _ _ _ _ _ ht hk)]
  rw [cells_cons D.length pv j1, cells_cons (D.length + 1) (some D.length) j2]
  simp only [reduceCtorEq, if_false]
  rw [thpool_thread_do_succ _ (step_pull_many s0 tp_p t tp0 _ L v D.length (D.length + 1) tl
      ⟨j1.1, j1.2, some (D.length + 1), pv⟩
      ⟨j2.1, j2.2, if js = [] then none else some (D.length + 1 + 1), some D.length⟩
      ht hp (getElem?_at_length _ _ _) rfl (getElem?_at_length_succ _ _ _ _))]
  rw [set_at_length_succ]
  rw [thpool_thread_do_succ _ (step_run_some s0 tp_p t tp0 _ _ _ _ D.length
      ⟨j1.1, j1.2, some (D.length + 1), pv⟩ ht (getElem?_at_length _ _ _))]
  rw [set_at_length]
  simp [cells_cons]

/-- The worker alone with the semaphore at one: it pulls NULL and waits. -/
theorem run_single (s0 : Proc) (tp_p t : Nat) (tp0 : thpool_t) (J : List (Option job_t))
    (q : thpool_jobqueue) (L : List Event) (fuel : Nat)
    (ht : t < s0.threads.length) (hp : tp_p < s0.pools.length) (hk : s0.thpool_keepalive ≠ 0)
    (hf : 6 ≤ fuel) :
    thpool_thread_do fuel (working s0 tp_p t tp0 J q 1 PC.while_keepalive L) t
    = working s0 tp_p t tp0 J q 0 PC.sem_wait (L ++ [Event.pull t none]) := by
  obtain ⟨f, rfl⟩ : ∃ f, fuel = f + 1 + 1 + 1 + 1 + 1 + 1 := ⟨fuel - 6, by omega⟩
  rw [thpool_thread_do_succ _ (step_while _ _ _ _ _ _ _ _ ht hk),
    thpool_thread_do_succ _ (step_sem_wait _ _ _ _ _ _ _ _ ht hp),
    thpool_thread_do_succ _ (step_if _ _ _ _ _ _ _ _ ht hk),
    thpool_thread_do_succ _ (step_pull_zero _ _ _ _ _ _ _ ht hp),
    thpool_thread_do_succ _ (step_run_none _ _ _ _ _ _ _ _ ht),
    thpool_thread_do_succ _ (step_while _ _ _ _ _ _ _ _ ht hk),
    thpool_thread_do_none _ (step_sem_wait_zero _ _ _ _ _ _ _ ht hp)]

/-- The worker alone with the semaphore at two: it calls the head job, sets
`head` and `tail` to NULL, pulls NULL and waits. -/
theorem run_pair (s0 : Proc) (tp_p t : Nat) (tp0 : thpool_t) (D : List (Option job_t))
    (pv tl : Option Nat) (j1 : Nat × Nat) (js : List (Nat × Nat))
    (L : List Event) (fuel : Nat)
    (ht : t < s0.threads.length) (hp : tp_p < s0.pools.length) (hk : s0.thpool_keepalive ≠ 0)
    (hf : 11 ≤ fuel) :
    thpool_thread_do fuel
      (working s0 tp_p t tp0 (D ++ cells D.length pv (j1 :: js))
        { head := some D.length, tail := tl } 2 PC.while_keepalive L) t
    = working s0 tp_p t tp0 (D ++ none :: cells (D.length + 1) (some D.length) js)
        { head := none, tail := none } 0 PC.sem_wait
        (L ++ [Event.pull t (some D.length), Event.call t D.length j1.1 j1.2, Event.pull t none]) := by
  obtain ⟨f, rfl⟩ : ∃ f, fuel = f + 6 + 1 + 1 + 1 + 1 + 1 := ⟨fuel - 11, by omega⟩
  rw [thpool_thread_do_succ _ (step_while _ _ _ _ _ _ _ _ ht hk),
    thpool_thread_do_succ _ (step_sem_wait _ _ _ _ _ _ _ _ ht hp),
    thpool_thread_do_succ _ (step_if _ _ _ _ _ _ _ _ ht hk),
    thpool_thread_do_succ _ (step_pull_one _ _ _ _ _ _ _ ht hp)]
  rw [cells_cons]
  rw [thpool_thread_do_succ _ (step_run_some s0 tp_p t tp0 _ _ _ _ D.length
      ⟨j1.1, j1.2, if js = [] then none else some (D.length + 1), pv⟩ ht
      (getElem?_at_length _ _ _))]
  rw [set_at_length, run_single s0 tp_p t tp0 _ _ _ (f + 6) ht hp hk (by omega)]
  simp

/-- The worker alone on a queue of `js.length + 1` linked jobs with the
semaphore at `v + 1`, not above their number, from the loop test until it
waits: it has pulled and called the first `v` jobs, in order, then pulled
NULL; the semaphore is zero. -/
theorem run_all (s0 : Proc) (tp_p t : Nat) (tp0 : thpool_t) (ht : t < s0.threads.length)
    (hp : tp_p < s0.pools.length) (hk : s0.thpool_keepalive ≠ 0) (tl : Option Nat) :
    ∀ (v : Nat) (js : List (Nat × Nat)) (j1 : Nat × Nat) (D : List (Option job_t))
      (pv : Option Nat) (L : List Event) (fuel : Nat), v ≤ js.length → 5 * (v + 1) + 1 ≤ fuel →
      ∃ J q, thpool_thread_do fuel
        (working s0 tp_p t tp0 (D ++ cells D.length pv (j1 :: js))
          { head := some D.length, tail := tl } (v + 1) PC.while_keepalive L) t
        = working s0 tp_p t tp0 J q 0 PC.sem_wait
            (L ++ worklog t D.length ((j1 :: js).take v) ++ [Event.pull t none])
  | 0, js, j1, D, pv, L, fuel, _, hf => by
    refine ⟨D ++ cells D.length pv (j1 :: js), { head := some D.length, tail := tl }, ?_⟩
    have := run_single s0 tp_p t tp0 (D ++ cells D.length pv (j1 :: js))
      { head := some D.length, tail := tl } L fuel ht hp hk (by omega)
    simpa [worklog] using this
  | 1, js, j1, D, pv, L, fuel, _, hf => by
    refine ⟨D ++ none :: cells (D.length + 1) (some D.length) js,
      { head := none, tail := none }, ?_⟩
    have := run_pair s0 tp_p t tp0 D pv tl j1 js L fuel ht hp hk (by omega)
    simpa [worklog] using this
  | v + 2, [], _, _, _, _, _, hv, _ => by simp at hv
  | v + 2, j2 :: js, j1, D, pv, L, fuel, hv, hf => by
    obtain ⟨f, rfl⟩ : ∃ f, fuel = f + 5 := ⟨fuel - 5, by omega⟩
    obtain ⟨J, q, h⟩ := run_all s0 tp_p t tp0 ht hp hk tl (v + 1) js j2 (D ++ [none])
      (some (D ++ [none]).length)
      (L ++ [Event.pull t (some D.length), Event.call t D.length j1.1 j1.2]) f
      (by simpa using hv) (by omega)
    refine ⟨J, q, ?_⟩
    have := turn_many s0 tp_p t tp0 D pv tl j1 j2 js L f v ht hp hk
    rw [this, h]
    simp [worklog]

/-! ## `thpool_init` -/

theorem clamp_eq_max (n : Int) : (if n < 0 then 0 else n) = max n 0 := by
  split <;> omega

theorem thpool_init_eq (s : Proc) (n : Int) (created : Nat → Bool) :
    thpool_init s n InitMem.ok created = some (some s.pools.length, { s with
      pools := s.pools ++ [some
        { threads := handles created s.threads.length 0 (max n 0).toNat, threadsN := max n 0,
          jobqueue := { head := none, tail := none }, queued_jobsN := 0 }]
      threads := s.threads ++ List.replicate (started created 0 (max n 0).toNat)
        { tp_p := s.pools.length, pc := PC.while_keepalive } }) := by
  have hp : ∀ tp : thpool_t,
      Proc.pool { s with pools := s.pools ++ [some tp] } s.pools.length = some tp := by
    intro tp
    simp [Proc.pool]
  simp only [thpool_init, InitMem.ok, jobqueue_init, clamp_eq_max, Bool.not_true,
    Bool.false_eq_true, if_false, if_true]
  rw [if_neg (by decide)]
  rw [thpool_init_for_eq _ _ _ _ _ _ (hp _)]
  simp

/-! ## What the queue operations leave unchanged -/

theorem Same.refl (s : Proc) : Same s s := ⟨rfl, rfl, rfl, rfl⟩

theorem Same.trans {a b c : Proc} (h1 : Same a b) (h2 : Same b c) : Same a c :=
  ⟨h2.1.trans h1.1, h2.2.1.trans h1.2.1, h2.2.2.1.trans h1.2.2.1, h2.2.2.2.trans h1.2.2.2⟩

theorem same_setPool (s : Proc) (tp_p : Nat) (tp : thpool_t) : Same s (s.setPool tp_p tp) :=
  ⟨rfl, rfl, rfl, rfl⟩

theorem same_modJob {s s1 : Proc} {p : Option Nat} {f : job_t → job_t}
    (h : s.modJob p f = some s1) : Same s s1 := by
  unfold Proc.modJob at h
  split at h
  · simp at h
  · split at h
    · simp at h
    · simp at h; subst h; exact ⟨rfl, rfl, rfl, rfl⟩

theorem same_free {s s1 : Proc} {p : Option Nat} (h : s.free p = some s1) : Same s s1 := by
  unfold Proc.free at h
  split at h
  · simp at h; subst h; exact Same.refl _
  · split at h
    · simp at h
    · simp at h; subst h; exact ⟨rfl, rfl, rfl, rfl⟩

theorem same_jobqueue_push {s s1 : Proc} {tp_p newjob_p : Nat}
    (h : jobqueue_push s tp_p newjob_p = some s1) : Same s s1 := by
  simp only [jobqueue_push, Option.bind_eq_bind, Option.bind_eq_some] at h
  obtain ⟨s2, h2, tp, _, h⟩ := h
  have a2 := same_modJob h2
  split at h
  · simp at h; subst h; exact a2.trans (same_setPool _ _ _)
  · simp only [Option.bind_eq_some] at h
    obtain ⟨s3, h3, s4, h4, h⟩ := h
    simp at h; subst h
    exact ((a2.trans (same_modJob h3)).trans (same_modJob h4)).trans (same_setPool _ _ _)

theorem same_jobqueue_pull {s : Proc} {tp_p : Nat} {r : Option Nat × Proc}
    (h : jobqueue_pull s tp_p = some r) : Same s r.2 := by
  simp only [jobqueue_pull, Option.bind_eq_bind, Option.bind_eq_some] at h
  obtain ⟨tp, _, h⟩ := h
  split at h
  · simp at h; subst h; exact Same.refl _
  · simp at h; subst h; exact same_setPool _ _ _
  · simp only [Option.bind_eq_some] at h
    obtain ⟨j, _, s2, h2, h⟩ := h
    simp at h; subst h
    exact (same_setPool _ _ _).trans (same_modJob h2)

theorem same_jobqueue_empty_while : ∀ (fuel : Nat) (s s1 : Proc) (tp_p : Nat) (curjob : Option Nat),
    jobqueue_empty_while fuel s tp_p curjob = some s1 → Same s s1
  | 0, _, _, _, _, h => by simp [jobqueue_empty_while] at h
  | fuel + 1, s, s1, tp_p, curjob, h => by
    unfold jobqueue_empty_while at h
    split at h
    · simp at h
    · split at h
      · simp at h; subst h; exact Same.refl _
      · simp only [Option.bind_eq_bind, Option.bind_eq_some] at h
        obtain ⟨j, _, tp, _, s2, h2, h⟩ := h
        exact ((same_setPool _ _ _).trans (same_free h2)).trans
          (same_jobqueue_empty_while fuel _ _ _ _ h)

theorem same_thpool_add_work {s : Proc} {tp_p f a : Nat} {ok : Bool} {r : Int × Proc}
    (h : thpool_add_work s tp_p f a ok = some r) : Same s r.2 := by
  unfold thpool_add_work at h
  split at h
  · simp at h
  · simp only [Option.bind_eq_bind, Option.bind_eq_some] at h
    obtain ⟨s2, h2, tp, _, h⟩ := h
    simp at h; subst h
    have := same_jobqueue_push h2
    exact this

/-! ## Job calls after the flag is written -/

theorem callsBy_append (t : Nat) : ∀ (L M : List Event),
    callsBy t (L ++ M) = callsBy t L + callsBy t M
  | [], M => by simp [callsBy]
  | Event.call u p f a :: L, M => by
    simp [callsBy, callsBy_append t L M]; omega
  | Event.pull u p :: L, M => by
    simp [callsBy, callsBy_append t L M]

theorem thread_step_moves {s s1 : Proc} {u : Nat} (h : thpool_thread_do_step s u = some s1) :
    ∃ th pc1 L1, s.threads[u]? = some th ∧ Moves u s.thpool_keepalive th.pc pc1 L1
      ∧ s1.thpool_keepalive = s.thpool_keepalive
      ∧ s1.threads = List.modify (fun th => { th with pc := pc1 }) u s.threads
      ∧ s1.log = s.log ++ L1 ∧ s1.destroys = s.destroys := by
  simp only [thpool_thread_do_step, Option.bind_eq_bind, Option.bind_eq_some] at h
  obtain ⟨th, hth, h⟩ := h
  refine ⟨th, ?_⟩
  split at h
  next hpc =>
    simp at h; subst h
    by_cases hk : s.thpool_keepalive = 0
    · exact ⟨PC.returned, [], hth, hpc ▸ Moves.while_stop hk, rfl, by simp [Proc.setPc, hk], by simp [Proc.setPc], rfl⟩
    · exact ⟨PC.sem_wait, [], hth, hpc ▸ Moves.while_alive hk, rfl, by simp [Proc.setPc, hk], by simp [Proc.setPc], rfl⟩
  next hpc =>
    simp only [Option.bind_eq_some] at h
    obtain ⟨tp, _, h⟩ := h
    split at h
    · simp at h
    · simp at h; subst h
      exact ⟨PC.if_keepalive, [], hth, hpc ▸ Moves.wake, rfl, rfl, by simp [Proc.setPc, Proc.setPool], rfl⟩
  next hpc =>
    simp at h; subst h
    by_cases hk : s.thpool_keepalive = 0
    · exact ⟨PC.returned, [], hth, hpc ▸ Moves.if_stop hk, rfl, by simp [Proc.setPc, hk], by simp [Proc.setPc], rfl⟩
    · exact ⟨PC.pull, [], hth, hpc ▸ Moves.if_alive hk, rfl, by simp [Proc.setPc, hk], by simp [Proc.setPc], rfl⟩
  next hpc =>
    simp only [Option.bind_eq_some] at h
    obtain ⟨r, hr, h⟩ := h
    simp at h; subst h
    have a := same_jobqueue_pull hr
    exact ⟨PC.run r.1, [Event.pull u r.1], hth, hpc ▸ Moves.pull r.1, a.1,
      by simp [Proc.setPc, a.2.1], by simp [Proc.setPc, a.2.2.1], a.2.2.2⟩
  next hpc =>
    simp at h; subst h
    exact ⟨PC.while_keepalive, [], hth, hpc ▸ Moves.skip, rfl, rfl, by simp [Proc.setPc], rfl⟩
  next p hpc =>
    simp only [Option.bind_eq_some] at h
    obtain ⟨j, _, s2, h2, h⟩ := h
    simp at h; subst h
    have a := same_free h2
    exact ⟨PC.while_keepalive, [Event.call u p j.function j.arg], hth, hpc ▸ Moves.call p _ _,
      a.1, by simp [Proc.setPc, a.2.1], by simp [Proc.setPc, a.2.2]⟩
  next hpc => simp at h

/-! ## `jobqueue_empty` and `thpool_destroy` -/

theorem jobqueue_len_of_sem {s : Proc} {tp_p v : Nat} (h : s.sem tp_p = some v) :
    jobqueue_len s tp_p = some (v : Int) := by
  simp only [Proc.sem, Option.map_eq_some'] at h
  obtain ⟨tp, hp, rfl⟩ := h
  simp [jobqueue_len, hp]

theorem sem_setPool (s : Proc) (tp_p : Nat) (tp0 tp : thpool_t)
    (h : s.pool tp_p = some tp0) :
    (s.setPool tp_p tp).sem tp_p = some tp.queued_jobsN := by
  simp [Proc.sem, Proc.pool, Proc.setPool, pool_lt h]

theorem pools_free {s s1 : Proc} {p : Option Nat} (h : s.free p = some s1) :
    s1.pools = s.pools := by
  unfold Proc.free at h
  split at h
  · simp at h; subst h; rfl
  · split at h
    · simp at h
    · simp at h; subst h; rfl

theorem pools_modJob {s s1 : Proc} {p : Option Nat} {f : job_t → job_t}
    (h : s.modJob p f = some s1) : s1.pools = s.pools := by
  unfold Proc.modJob at h
  split at h
  · simp at h
  · split at h
    · simp at h
    · simp at h; subst h; rfl

/-- The loop of `jobqueue_empty` never leaves while the semaphore is not zero:
no statement of the loop changes the semaphore. -/
theorem jobqueue_empty_while_pos : ∀ (fuel : Nat) (s : Proc) (tp_p v : Nat) (curjob : Option Nat),
    s.sem tp_p = some (v + 1) → jobqueue_empty_while fuel s tp_p curjob = none
  | 0, _, _, _, _, _ => rfl
  | fuel + 1, s, tp_p, v, curjob, h => by
    rw [Option.eq_none_iff_forall_not_mem]
    intro s1 hs1
    simp only [Option.mem_def] at hs1
    unfold jobqueue_empty_while at hs1
    rw [jobqueue_len_of_sem h] at hs1
    have hne : ((v + 1 : Nat) : Int) ≠ 0 := by omega
    simp only [if_neg hne, Option.bind_eq_bind, Option.bind_eq_some] at hs1
    obtain ⟨j, _, tp, htp, s2, h2, hs1⟩ := hs1
    have hv : tp.queued_jobsN = v + 1 := by
      simp only [Proc.sem, htp, Option.map_some', Option.some.injEq] at h
      exact h
    have hlen : s2.sem tp_p = some (v + 1) := by
      have := sem_setPool s tp_p tp
        { tp with jobqueue := { tp.jobqueue with tail := j.prev } } htp
      simp only [Proc.sem, Proc.pool] at this ⊢
      rw [pools_free h2, this, hv]
    rw [jobqueue_empty_while_pos fuel s2 tp_p v _ hlen] at hs1
    simp at hs1

theorem jobqueue_empty_pos (fuel : Nat) (s : Proc) (tp_p v : Nat)
    (h : s.sem tp_p = some (v + 1)) : jobqueue_empty fuel s tp_p = none := by
  simp only [jobqueue_empty, Option.bind_eq_bind]
  cases hp : s.pool tp_p with
  | none => rfl
  | some tp => simp [jobqueue_empty_while_pos fuel s tp_p v _ h]

/-- With the semaphore at zero `jobqueue_empty` returns at once, whatever the
fuel, and only resets `head` and `tail`. -/
theorem jobqueue_empty_zero (fuel : Nat) (s : Proc) (tp_p : Nat) (tp : thpool_t)
    (hp : s.pool tp_p = some tp) (hv : tp.queued_jobsN = 0) :
    jobqueue_empty (fuel + 1) s tp_p
      = some (s.setPool tp_p { tp with jobqueue := { head := none, tail := none } }) := by
  have hl : jobqueue_len s tp_p = some 0 := by simp [jobqueue_len, hp, hv]
  simp [jobqueue_empty, hp, jobqueue_empty_while, hl]

/-- When `jobqueue_empty` returns, the semaphore was zero and only `head` and
`tail` were reset. -/
theorem jobqueue_empty_some {fuel : Nat} {s s1 : Proc} {tp_p : Nat}
    (h : jobqueue_empty fuel s tp_p = some s1) :
    ∃ tp, s.pool tp_p = some tp ∧ tp.queued_jobsN = 0
      ∧ s1 = s.setPool tp_p { tp with jobqueue := { head := none, tail := none } } := by
  cases hp : s.pool tp_p with
  | none => simp [jobqueue_empty, hp] at h
  | some tp =>
    cases hv : tp.queued_jobsN with
    | succ v =>
      rw [jobqueue_empty_pos fuel s tp_p v (by simp [Proc.sem, hp, hv])] at h
      simp at h
    | zero =>
      cases fuel with
      | zero => simp [jobqueue_empty, hp, jobqueue_empty_while] at h
      | succ f =>
        rw [jobqueue_empty_zero f s tp_p tp hp hv] at h
        simp at h
        exact ⟨tp, rfl, hv, h.symm⟩

theorem pool_setPool_ne (s : Proc) {A B : Nat} (tp : thpool_t) (h : B ≠ A) :
    (s.setPool A tp).pool B = s.pool B := by
  simp [Proc.pool, Proc.setPool, List.getElem?_set_ne (Ne.symm h)]

/-- One step of a call `thpool_destroy(A)`: the threads, the record and the job
memory are unchanged, every other pool is unchanged, the flag is zero after
the step at line 155 and unchanged by every other step. -/
theorem destroy_step_frame {s s1 : Proc} {d : Nat} (h : thpool_destroy_step s d = some s1) :
    ∃ c pc1, s.destroys[d]? = some c
      ∧ s1.destroys = List.modify (fun c => { c with pc := pc1 }) d s.destroys
      ∧ s1.threads = s.threads ∧ s1.log = s.log ∧ s1.jobs = s.jobs
      ∧ (∀ B, B ≠ c.tp_p → s1.pool B = s.pool B)
      ∧ (c.pc = DPC.keepalive → s1.thpool_keepalive = 0)
      ∧ (c.pc ≠ DPC.keepalive → s1.thpool_keepalive = s.thpool_keepalive) := by
  simp only [thpool_destroy_step, Option.bind_eq_bind, Option.bind_eq_some] at h
  obtain ⟨c, hc, h⟩ := h
  refine ⟨c, ?_⟩
  split at h
  next hpc =>
    simp at h; subst h
    exact ⟨_, hc, rfl, rfl, rfl, rfl, fun _ _ => rfl, fun _ => rfl, fun hn => absurd hpc hn⟩
  next t hpc =>
    simp only [Option.bind_eq_some] at h
    obtain ⟨tp, _, h⟩ := h
    split at h
    · simp at h; subst h
      exact ⟨_, hc, rfl, rfl, rfl, rfl, fun B hB => pool_setPool_ne _ _ hB,
        fun hk => (by rw [hpc] at hk; cases hk), fun _ => rfl⟩
    · simp at h; subst h
      exact ⟨_, hc, rfl, rfl, rfl, rfl, fun _ _ => rfl,
        fun hk => (by rw [hpc] at hk; cases hk), fun _ => rfl⟩
  next hpc =>
    simp at h; subst h
    exact ⟨_, hc, rfl, rfl, rfl, rfl, fun _ _ => rfl,
      fun hk => (by rw [hpc] at hk; cases hk), fun _ => rfl⟩
  next t hpc =>
    simp only [Option.bind_eq_some] at h
    obtain ⟨tp, _, h⟩ := h
    split at h
    · simp only [Option.bind_eq_some] at h
      obtain ⟨handle, _, tid, _, th, _, h⟩ := h
      split at h
      · simp at h; subst h
        exact ⟨_, hc, rfl, rfl, rfl, rfl, fun _ _ => rfl,
          fun hk => (by rw [hpc] at hk; cases hk), fun _ => rfl⟩
      · simp at h
    · simp at h; subst h
      exact ⟨_, hc, rfl, rfl, rfl, rfl, fun _ _ => rfl,
        fun hk => (by rw [hpc] at hk; cases hk), fun _ => rfl⟩
  next hpc =>
    simp only [Option.bind_eq_some] at h
    obtain ⟨s2, h2, h⟩ := h
    simp at h; subst h
    obtain ⟨tp, _, _, rfl⟩ := jobqueue_empty_some h2
    exact ⟨_, hc, rfl, rfl, rfl, rfl, fun B hB => pool_setPool_ne _ _ hB,
      fun hk => (by rw [hpc] at hk; cases hk), fun _ => rfl⟩
  next hpc =>
    simp at h; subst h
    refine ⟨_, hc, rfl, rfl, rfl, rfl, fun B hB => ?_,
      fun hk => (by rw [hpc] at hk; cases hk), fun _ => rfl⟩
    simp [Proc.pool, Proc.setDpc, List.getElem?_set_ne (Ne.symm hB)]
  next hpc => simp at h

theorem inFlight_congr {s s1 : Proc} (t : Nat) (h : s1.threads = s.threads) :
    inFlight s1 t = inFlight s t := by
  simp [inFlight, h]

theorem inFlight_modify {s s1 : Proc} {u : Nat} {th : Thread} (pc1 : PC) (t : Nat)
    (hth : s.threads[u]? = some th)
    (h : s1.threads = List.modify (fun th => { th with pc := pc1 }) u s.threads) :
    inFlight s1 t = if u = t then pc1.inFlight else inFlight s t := by
  by_cases hut : u = t
  · subst hut
    simp [inFlight, h, hth]
  · simp [inFlight, h, hut, List.getElem?_modify_ne _ _ hut]

theorem inFlight_append (s s1 : Proc) (t m : Nat) (tp_p : Nat)
    (h : s1.threads = s.threads ++ List.replicate m { tp_p := tp_p, pc := PC.while_keepalive }) :
    inFlight s1 t = inFlight s t := by
  unfold inFlight
  rw [h]
  by_cases hlt : t < s.threads.length
  · rw [List.getElem?_append_left hlt]
  · rw [List.getElem?_append_right (by omega), List.getElem?_eq_none (l := s.threads) (by omega),
      List.getElem?_replicate]
    by_cases h2 : t - s.threads.length < m <;> simp [h2, PC.inFlight]

/-- One action taken with the flag at zero: the flag stays zero, and for every
thread the calls made plus the call still owed do not grow. -/
theorem step_owed {s s1 : Proc} {a : Action} (t : Nat) (h0 : s.thpool_keepalive = 0)
    (h : step s a = some s1) :
    s1.thpool_keepalive = 0
      ∧ callsBy t s1.log + inFlight s1 t ≤ callsBy t s.log + inFlight s t := by
  cases a with
  | init n =>
    simp only [step, thpool_init_eq, Option.map_some', Option.some.injEq] at h
    subst h
    exact ⟨h0, by rw [inFlight_append s _ t _ _ rfl]⟩
  | add_work tp_p f x =>
    simp only [step, Option.map_eq_some'] at h
    obtain ⟨r, hr, rfl⟩ := h
    have a := same_thpool_add_work hr
    exact ⟨a.1.trans h0, by rw [inFlight_congr t a.2.1, a.2.2.1]⟩
  | thread u =>
    obtain ⟨th, pc1, L1, hth, hm, hk, hts, hl, _⟩ := thread_step_moves h
    refine ⟨hk.trans h0, ?_⟩
    rw [hl, callsBy_append, inFlight_modify pc1 t hth hts]
    generalize hpc : th.pc = pc0 at hm
    by_cases hut : u = t
    · subst hut
      simp only [if_true, inFlight, hth, hpc]
      cases hm with
      | while_alive hne => exact absurd h0 hne
      | while_stop _ => simp [callsBy, PC.inFlight]
      | wake => simp [callsBy, PC.inFlight]
      | if_alive hne => exact absurd h0 hne
      | if_stop _ => simp [callsBy, PC.inFlight]
      | pull r => cases r <;> simp [callsBy, PC.inFlight]
      | skip => simp [callsBy, PC.inFlight]
      | call p f x => simp [callsBy, PC.inFlight]
    · simp only [if_neg hut]
      cases hm <;> simp [callsBy, hut]
  | destroy_call tp_p =>
    simp only [step, Option.some.injEq] at h
    subst h
    exact ⟨h0, le_refl _⟩
  | destroy d =>
    obtain ⟨c, pc1, _, _, hts, hl, _, _, hk1, hk2⟩ := destroy_step_frame h
    refine ⟨?_, by rw [hl, inFlight_congr t hts]⟩
    by_cases hc : c.pc = DPC.keepalive
    · exact hk1 hc
    · exact (hk2 hc).trans h0

theorem exec_owed (t : Nat) : ∀ (acts : List Action) (s s1 : Proc),
    s.thpool_keepalive = 0 → exec s acts = some s1 →
    s1.thpool_keepalive = 0
      ∧ callsBy t s1.log + inFlight s1 t ≤ callsBy t s.log + inFlight s t
  | [], s, s1, h0, h => by
    simp only [exec, Option.some.injEq] at h
    subst h
    exact ⟨h0, le_refl _⟩
  | a :: acts, s, s1, h0, h => by
    simp only [exec, Option.bind_eq_some] at h
    obtain ⟨s2, h2, h⟩ := h
    have a2 := step_owed t h0 h2
    have a3 := exec_owed t acts s2 s1 a2.1 h
    exact ⟨a3.1, le_trans a3.2 a2.2⟩

/-! ## Reading the queue from `head` -/

theorem walk_nil (jobs : List (Option job_t)) (fuel : Nat) : walk jobs fuel none = some [] := by
  cases fuel <;> rfl

theorem walk_cells : ∀ (js : List (Nat × Nat)) (j1 : Nat × Nat) (D : List (Option job_t))
    (pv : Option Nat) (fuel : Nat), js.length + 1 ≤ fuel →
    walk (D ++ cells D.length pv (j1 :: js)) fuel (some D.length)
      = some (addressed D.length (j1 :: js))
  | [], j1, D, pv, fuel, hf => by
    obtain ⟨f, rfl⟩ : ∃ f, fuel = f + 1 := ⟨fuel - 1, by simp at hf; omega⟩
    simp only [walk, cells, getElem?_at_length, Option.join, Option.bind_eq_bind,
      Option.some_bind, id, walk_nil, Option.map_some', addressed]
  | j2 :: js, j1, D, pv, fuel, hf => by
    obtain ⟨f, rfl⟩ : ∃ f, fuel = f + 1 := ⟨fuel - 1, by simp at hf; omega⟩
    have ih := walk_cells js j2 (D ++ [some ⟨j1.1, j1.2, some (D.length + 1), pv⟩])
      (some D.length) f (by simp at hf ⊢; omega)
    simp only [List.append_assoc, List.singleton_append, List.length_append, List.length_singleton]
      at ih
    simp only [walk, cells, getElem?_at_length, Option.join, Option.bind_eq_bind,
      Option.some_bind, id, ih, Option.map_some', addressed]

theorem addressed_getLast : ∀ (js : List (Nat × Nat)) (j1 : Nat × Nat) (a : Nat),
    ((addressed a (j1 :: js)).getLast?).map (fun x => x.1) = some (a + js.length)
  | [], j1, a => by simp [addressed]
  | j2 :: js, j1, a => by
    have ih := addressed_getLast js j2 (a + 1)
    simp only [addressed, List.getLast?_cons_cons, List.length_cons] at ih ⊢
    rw [ih]
    congr 1
    omega

theorem addressed_map : ∀ (js : List (Nat × Nat)) (a : Nat),
    (addressed a js).map (fun x => x.2) = js
  | [], _ => rfl
  | j :: js, a => by simp [addressed, addressed_map js (a + 1)]

theorem jobqueue_list_queued (s0 : Proc) (tp_p : Nat) (tp0 : thpool_t) (js : List (Nat × Nat))
    (h : tp_p < s0.pools.length) :
    jobqueue_list (queued s0 tp_p tp0 js) tp_p = some (addressed s0.jobs.length js) := by
  have hp : (queued s0 tp_p tp0 js).pool tp_p = some { tp0 with
      jobqueue := {
        head := if js = [] then none else some s0.jobs.length
        tail := if js = [] then none else some (s0.jobs.length + js.length - 1) }
      queued_jobsN := min js.length SEM_VALUE_MAX } := by
    simp [queued, Proc.pool, h]
  simp only [jobqueue_list, hp, Option.bind_eq_bind, Option.some_bind]
  cases js with
  | nil => simp [walk_nil, addressed]
  | cons j1 js =>
    have hw := walk_cells js j1 s0.jobs (none) (s0.jobs ++ cells s0.jobs.length none (j1 :: js)).length
      (by simp [cells_length])
    have hq : (queued s0 tp_p tp0 (j1 :: js)).jobs = s0.jobs ++ cells s0.jobs.length none (j1 :: js) :=
      rfl
    rw [hq]
    simp only [reduceCtorEq, if_false, hw, Option.some_bind, addressed_getLast]
    simp

/-! ## A whole call of `thpool_destroy` -/

/-- A worker that tests the flag while it is zero returns. -/
theorem thread_step_stopped {s : Proc} {u : Nat} {th : Thread} (h0 : s.thpool_keepalive = 0)
    (hth : s.threads[u]? = some th)
    (hpc : th.pc = PC.while_keepalive ∨ th.pc = PC.if_keepalive) :
    thpool_thread_do_step s u = some (s.setPc u PC.returned) := by
  rcases hpc with hpc | hpc <;>
    simp [thpool_thread_do_step, hth, hpc, h0]

/-- A call of `thpool_destroy` that has not reached the deallocation never
returns while the semaphore of its pool is not zero. -/
theorem destroy_run_pos : ∀ (fuel : Nat) (s : Proc) (d : Nat) (c : Destroy) (v : Nat),
    s.destroys[d]? = some c → c.pc ≠ DPC.dealloc → c.pc ≠ DPC.returned →
    s.sem c.tp_p = some (v + 1) → thpool_destroy_run fuel s d = none
  | 0, _, _, _, _, _, _, _, _ => rfl
  | fuel + 1, s, d, c, v, hc, hnd, hnr, hv => by
    rw [Option.eq_none_iff_forall_not_mem]
    intro s1 hs1
    simp only [Option.mem_def, thpool_destroy_run, hc, if_neg hnr, Option.bind_eq_some] at hs1
    obtain ⟨s2, h2, hs1⟩ := hs1
    have h2c := h2
    simp only [thpool_destroy_step, hc, Option.bind_eq_bind, Option.some_bind] at h2
    have key : ∀ pc1 w, s2.destroys[d]? = some { c with pc := pc1 } → pc1 ≠ DPC.dealloc →
        pc1 ≠ DPC.returned → s2.sem c.tp_p = some (w + 1) → False := by
      intro pc1 w h3 h4 h5 h6
      rw [destroy_run_pos fuel s2 d _ w h3 h4 h5 h6] at hs1
      simp at hs1
    have hd : ∀ (s3 : Proc) (pc1 : DPC), s3.destroys = s.destroys →
        (s3.setDpc d pc1).destroys[d]? = some { c with pc := pc1 } := by
      intro s3 pc1 h3
      simp [Proc.setDpc, h3, hc]
    split at h2
    next hpc =>
      simp at h2; subst h2
      exact key (DPC.sem_post 0) v (hd _ _ rfl) (by simp) (by simp) hv
    next t hpc =>
      simp only [Option.bind_eq_some] at h2
      obtain ⟨tp, htp, h2⟩ := h2
      split at h2
      · simp at h2; subst h2
        simp only [Proc.sem, htp, Option.map_some', Option.some.injEq] at hv
        have hsp : ∃ w, (sem_post tp.queued_jobsN).2 = w + 1 := by
          unfold sem_post
          split
          · exact ⟨tp.queued_jobsN, rfl⟩
          · exact ⟨v, hv⟩
        obtain ⟨w, hw⟩ := hsp
        refine key (DPC.sem_post (t + 1)) w (hd _ _ rfl) (by simp) (by simp) ?_
        have := sem_setPool s c.tp_p tp
          { tp with queued_jobsN := (sem_post tp.queued_jobsN).2 } htp
        rw [← hw]
        exact this
      · simp at h2; subst h2
        exact key DPC.sem_destroy v (hd _ _ rfl) (by simp) (by simp) hv
    next hpc =>
      simp at h2; subst h2
      exact key (DPC.join 0) v (hd _ _ rfl) (by simp) (by simp) hv
    next t hpc =>
      simp only [Option.bind_eq_some] at h2
      obtain ⟨tp, htp, h2⟩ := h2
      split at h2
      · simp only [Option.bind_eq_some] at h2
        obtain ⟨handle, _, tid, _, th, _, h2⟩ := h2
        split at h2
        · simp at h2; subst h2
          exact key (DPC.join (t + 1)) v (hd _ _ rfl) (by simp) (by simp) hv
        · simp at h2
      · simp at h2; subst h2
        exact key DPC.jobqueue_empty v (hd _ _ rfl) (by simp) (by simp) hv
    next hpc =>
      rw [jobqueue_empty_pos _ s c.tp_p v hv] at h2
      simp at h2
    next hpc => exact hnd hpc
    next hpc => exact hnr hpc

/-- Run alone, `thpool_destroy` never returns on a pool whose semaphore is not
zero. -/
theorem thpool_destroy_pos (fuel : Nat) (s : Proc) (A v : Nat)
    (h : s.sem A = some (v + 1)) : thpool_destroy fuel s A = none := by
  have hc : (Proc.mk s.thpool_keepalive s.jobs s.pools s.threads
      (s.destroys ++ [{ tp_p := A, pc := DPC.keepalive }]) s.log).destroys[s.destroys.length]?
      = some { tp_p := A, pc := DPC.keepalive } := by
    simp
  exact destroy_run_pos fuel _ _ _ v hc (by simp) (by simp) h

/-! ## The claims at concrete inputs -/

/-- C1 (the code at N = 1, W = 1): on a pool fresh from `thpool_init(1)` one job
is submitted and the worker runs until it is blocked in `sem_wait`; the job has
not been called (zero calls instead of one): `jobqueue_pull` returned NULL,
and the job is still linked in the queue. -/
theorem one_job_one_worker_never_runs :
    (exec Proc.start run_one_job).map (fun s => s.waiting 0) = some true
      ∧ (exec Proc.start run_one_job).map (fun s => calls s.log) = some []
      ∧ (exec Proc.start run_one_job).map (fun s => s.log) = some [Event.pull 0 none]
      ∧ (exec Proc.start run_one_job).bind (fun s => jobqueue_list s 0) = some [(0, 1, 10)] := by
  decide

/-- C2 (the code at J1, J2, J3): the three jobs are submitted from one thread to
a pool fresh from `thpool_init(1)` and the single worker then runs until it is
blocked in `sem_wait`; it has called J1 and J2 only, not J3. -/
theorem three_jobs_single_worker_runs_two :
    (exec Proc.start run_three_jobs).map (fun s => calls (thpool_thread_do 100 s 0).log)
        = some [(1, 10), (2, 20)]
      ∧ (exec Proc.start run_three_jobs).map (fun s => (thpool_thread_do 100 s 0).waiting 0)
        = some true := by
  decide

/-- C3 (the code after one submit and one pop): `jobqueue_len` is 0, yet the
pop returned NULL, no job was called, and the submitted job is still linked
from `head`: one job is neither popped nor executed. -/
theorem len_zero_with_one_job_left :
    (exec Proc.start run_submit_pop).bind (fun s => jobqueue_len s 0) = some 0
      ∧ (exec Proc.start run_submit_pop).map (fun s => s.log) = some [Event.pull 0 none]
      ∧ (exec Proc.start run_submit_pop).bind (fun s => jobqueue_list s 0) = some [(0, 1, 10)] := by
  decide

/-- C4 (the code at k = 1 and k = 2): called by the worker after its `sem_wait`,
with k = 1 job queued `jobqueue_pull` returns NULL and changes nothing, the job
staying linked; with k = 2 it returns the head job and sets `head` and `tail`
to NULL, so the second job (still allocated, at address 1) is no longer
queued. -/
theorem pull_after_wait_one_and_two :
    (exec Proc.start run_before_pull_1).bind (fun s => jobqueue_list s 0) = some [(0, 1, 10)]
      ∧ (exec Proc.start run_before_pull_1).bind
          (fun s => (jobqueue_pull s 0).map fun r => (r.1, decide (r.2 = s))) = some (none, true)
      ∧ (exec Proc.start run_before_pull_2).bind
          (fun s => (jobqueue_pull s 0).map fun r => r.1) = some (some 0)
      ∧ (exec Proc.start run_before_pull_2).bind
          (fun s => (jobqueue_pull s 0).bind fun r => r.2.pool 0)
          = some { threads := [some 0], threadsN := 1, jobqueue := { head := none, tail := none },
                   queued_jobsN := 1 }
      ∧ (exec Proc.start run_before_pull_2).bind
          (fun s => (jobqueue_pull s 0).bind fun r => r.2.deref (some 1))
          = some { function := 2, arg := 20, next := none, prev := some 0 } := by
  decide

/-- C5 (the code at k = 1): on a pool without workers holding one submitted job
(semaphore 1), neither `jobqueue_empty` nor the whole `thpool_destroy` returns,
whatever the fuel: the loop condition reads the semaphore, which the loop
never changes. -/
theorem drain_of_one_job_never_returns (fuel : Nat) :
    (exec Proc.start run_zero_workers_one_job).bind (fun s => jobqueue_list s 0)
        = some [(0, 1, 10)]
      ∧ (exec Proc.start run_zero_workers_one_job).bind (fun s => jobqueue_empty fuel s 0) = none
      ∧ (exec Proc.start run_zero_workers_one_job).bind (fun s => thpool_destroy fuel s 0)
        = none := by
  have hl : (exec Proc.start run_zero_workers_one_job).bind (fun s => s.sem 0)
      = some (0 + 1) := by decide
  refine ⟨by decide, ?_, ?_⟩
  · cases h : exec Proc.start run_zero_workers_one_job with
    | none => rfl
    | some s =>
      rw [h] at hl
      exact jobqueue_empty_pos fuel s 0 0 hl
  · cases h : exec Proc.start run_zero_workers_one_job with
    | none => rfl
    | some s =>
      rw [h] at hl
      exact thpool_destroy_pos fuel s 0 0 hl

/-! ## Shutdown -/

/-- C6 (counterexample): two jobs are queued; the worker reads the flag as alive
after its wake; `thpool_destroy` then writes the flag (it reads 0 and no job
has been called); the worker's next two steps pull J1 = (1, 10) and call
it. -/
theorem job_called_after_flag_write :
    (exec Proc.start run_flag_written).map (fun s => (s.thpool_keepalive, calls s.log))
        = some (0, [])
      ∧ (exec Proc.start (run_flag_written ++ [Action.thread 0, Action.thread 0])).map
          (fun s => (s.thpool_keepalive, calls s.log)) = some (0, [(1, 10)]) := by
  decide

/-- C6 (amended): let `thpool_destroy` write the flag at line 155, taking `s0` to
`s`.  Then for every schedule `acts` of further steps (of workers, of
`thpool_destroy`, further submissions and pools) and every worker thread `t`,
the number of job functions `t` has called at the end exceeds the number it
had called before the write by at most `inFlight s0 t`: by nothing, unless at
the write `t` had read the flag as alive at line 97 and not yet made its call
(it stood at the pull or held a non-NULL `job_p`), and then by one at most.
The flag still reads 0 at the end. -/
theorem calls_after_flag_write_bounded (s0 s s1 : Proc) (d : Nat) (acts : List Action) (t : Nat)
    (hpc : (s0.destroys[d]?).map (fun c => c.pc) = some DPC.keepalive)
    (hw : thpool_destroy_step s0 d = some s)
    (h : exec s acts = some s1) :
    s1.thpool_keepalive = 0 ∧ callsBy t s1.log ≤ callsBy t s0.log + inFlight s0 t := by
  obtain ⟨c, pc1, hc, _, hts, hl, _, _, hk1, _⟩ := destroy_step_frame hw
  rw [hc] at hpc
  simp only [Option.map_some', Option.some.injEq] at hpc
  have a := exec_owed t acts s s1 (hk1 hpc) h
  rw [hl, inFlight_congr t hts] at a
  exact ⟨a.1, by omega⟩

/-- Witness for C6 (amended): the run of the counterexample; the worker stood at
the pull when the flag was written and calls exactly one job afterwards. -/
theorem calls_after_flag_write_bounded_witness :
    (before_write.destroys[0]?).map (fun c => c.pc) = some DPC.keepalive
      ∧ thpool_destroy_step before_write 0 = some after_write
      ∧ exec after_write [Action.thread 0, Action.thread 0] = some after_call
      ∧ after_call.thpool_keepalive = 0
      ∧ callsBy 0 after_call.log ≤ callsBy 0 before_write.log + inFlight before_write 0 :=
  ⟨by decide, by decide, by decide,
    calls_after_flag_write_bounded before_write after_write after_call 0
      [Action.thread 0, Action.thread 0] 0 (by decide) (by decide) (by decide)⟩

/-! ## Construction and the zero-worker pool -/

theorem thpool_init_spec (s : Proc) (n : Int) (created : Nat → Bool) :
    ∃ s1 tp, thpool_init s n InitMem.ok created = some (some s.pools.length, s1)
      ∧ s1.pools = s.pools ++ [some tp]
      ∧ s1.threads = s.threads ++ List.replicate (started created 0 (max n 0).toNat)
          { tp_p := s.pools.length, pc := PC.while_keepalive }
      ∧ s1.jobs = s.jobs ∧ s1.log = s.log ∧ s1.thpool_keepalive = s.thpool_keepalive
      ∧ tp.threads = handles created s.threads.length 0 (max n 0).toNat
      ∧ tp.threadsN = max n 0
      ∧ tp.jobqueue = { head := none, tail := none }
      ∧ tp.queued_jobsN = 0 :=
  ⟨_, thpool_t.mk _ _ _ _, thpool_init_eq s n created, rfl, rfl, rfl, rfl, rfl, rfl, rfl, rfl, rfl⟩

theorem pool_of_pools_append {s s1 : Proc} {tp : thpool_t} (h : s1.pools = s.pools ++ [some tp]) :
    s1.pool s.pools.length = some tp := by
  simp [Proc.pool, h]

/-- C8 (counterexample): every allocation of `thpool_init(1)` succeeds and its
one `pthread_create` fails; the call returns a pool with `threadsN` = 1, an
empty queue and a zero semaphore, and no worker thread has been started. -/
theorem failed_create_starts_no_thread :
    (thpool_init Proc.start 1 InitMem.ok (fun _ => false)).map (fun r => r.1) = some (some 0)
      ∧ (thpool_init Proc.start 1 InitMem.ok (fun _ => false)).bind (fun r => r.2.pool 0)
          = some { threads := [none], threadsN := 1, jobqueue := { head := none, tail := none },
                   queued_jobsN := 0 }
      ∧ (thpool_init Proc.start 1 InitMem.ok (fun _ => false)).map (fun r => r.2.threads)
          = some [] := by
  decide

/-- C8 (amended): for every integer `n`, with every allocation succeeding,
whatever the outcomes `created` of the `pthread_create` calls, `thpool_init(n)`
returns a pool, at the next unused address, whose `threadsN` is `max n 0`
(a negative `n` counts as zero), whose queue has `head` and `tail` NULL, whose
semaphore is zero so that `jobqueue_len` returns 0, and whose handle table
has `max n 0` entries; it starts one worker thread, at the entry of
`thpool_thread_do` with this pool as argument, for each `pthread_create` that
succeeds, and no other.  When every `pthread_create` succeeds these are
exactly `max n 0` threads, and their ids are the handles stored. -/
theorem thpool_init_clamps_and_starts (s : Proc) (n : Int) (created : Nat → Bool) :
    (∃ s1 tp, thpool_init s n InitMem.ok created = some (some s.pools.length, s1)
      ∧ s1.pool s.pools.length = some tp
      ∧ tp.threadsN = max n 0
      ∧ tp.jobqueue = { head := none, tail := none }
      ∧ tp.queued_jobsN = 0
      ∧ jobqueue_len s1 s.pools.length = some 0
      ∧ tp.threads.length = (max n 0).toNat
      ∧ s1.threads = s.threads ++ List.replicate (started created 0 (max n 0).toNat)
          { tp_p := s.pools.length, pc := PC.while_keepalive }
      ∧ started created 0 (max n 0).toNat ≤ (max n 0).toNat)
    ∧ ∃ s1 tp, thpool_init s n InitMem.ok (fun _ => true) = some (some s.pools.length, s1)
      ∧ s1.pool s.pools.length = some tp
      ∧ s1.threads = s.threads ++
          List.replicate (max n 0).toNat { tp_p := s.pools.length, pc := PC.while_keepalive }
      ∧ tp.threads = (List.range' s.threads.length (max n 0).toNat).map some := by
  constructor
  · obtain ⟨s1, tp, hi, hps, hts, _, _, _, h1, h2, h3, h4⟩ := thpool_init_spec s n created
    have hp := pool_of_pools_append hps
    exact ⟨s1, tp, hi, hp, h2, h3, h4, by simp [jobqueue_len, hp, h4],
      by rw [h1, handles_length], hts, started_le _ _ _⟩
  · obtain ⟨s1, tp, hi, hps, hts, _, _, _, h1, _, _, _⟩ := thpool_init_spec s n (fun _ => true)
    rw [started_all] at hts
    rw [handles_all] at h1
    exact ⟨s1, tp, hi, pool_of_pools_append hps, hts, h1⟩

/-- The zero-worker pool for job lists of any length: the semaphore stops at
`SEM_VALUE_MAX`. -/
theorem zero_worker_pool_general (s : Proc) (js : List (Nat × Nat)) (created : Nat → Bool) :
    ∃ s1 s2, thpool_init s 0 InitMem.ok created = some (some s.pools.length, s1)
      ∧ s1.threads = s.threads
      ∧ submit s1 s.pools.length js = some (List.replicate js.length 0, s2)
      ∧ s2.log = s.log ∧ s2.threads = s.threads
      ∧ jobqueue_len s2 s.pools.length = some ((min js.length SEM_VALUE_MAX : Nat) : Int)
      ∧ (jobqueue_list s2 s.pools.length).map (List.map fun x => x.2) = some js := by
  obtain ⟨s1, tp, hi, hps, hts, hj, hl, _, _, _, h3, h4⟩ := thpool_init_spec s 0 created
  simp only [max_self, Int.toNat_zero, started, List.replicate_zero, List.append_nil] at hts
  have hp := pool_of_pools_append hps
  have hlt : s.pools.length < s1.pools.length := pool_lt hp
  have hq := submit_queued s1 s.pools.length tp hlt js []
  rw [queued_nil hp h3 h4] at hq
  simp only [List.nil_append] at hq
  refine ⟨s1, _, hi, hts, hq, hl, hts, ?_, ?_⟩
  · simp [jobqueue_len, queued, Proc.pool, hlt]
  · rw [jobqueue_list_queued _ _ _ _ hlt]
    simp [addressed_map]

/-- C7 (counterexample): on a pool from `thpool_init(0)`, after k = 2147483648
calls of `thpool_add_work`, each returning 0, `jobqueue_len` is 2147483647 and
not k: the semaphore is at `SEM_VALUE_MAX` and the last `sem_post` failed. -/
theorem len_stops_at_sem_value_max :
    ∃ s1 s2, thpool_init Proc.start 0 InitMem.ok (fun _ => true) = some (some 0, s1)
      ∧ submit s1 0 (List.replicate 2147483648 (1, 10))
          = some (List.replicate 2147483648 0, s2)
      ∧ jobqueue_len s2 0 = some 2147483647 := by
  obtain ⟨s1, s2, hi, _, hs, _, _, hl, _⟩ :=
    zero_worker_pool_general Proc.start (List.replicate 2147483648 (1, 10)) (fun _ => true)
  rw [List.length_replicate] at hs hl
  have hm : min 2147483648 SEM_VALUE_MAX = 2147483647 := by decide
  rw [hm] at hl
  exact ⟨s1, s2, hi, hs, hl⟩

/-- C7 (amended): with every allocation succeeding, `thpool_init(0)` returns a
pool and creates no thread; and for every list `js` of jobs, of any length k
up to `SEM_VALUE_MAX`, after `thpool_add_work` has been called for each of them
in order every call has returned 0, the record of job calls is unchanged and
there is still no worker thread, `jobqueue_len` is k, and the queue read from
`head` along `next` to `tail` holds exactly the jobs `js` in submission
order. -/
theorem zero_worker_pool_queues (s : Proc) (js : List (Nat × Nat)) (created : Nat → Bool)
    (hk : js.length ≤ SEM_VALUE_MAX) :
    ∃ s1 s2, thpool_init s 0 InitMem.ok created = some (some s.pools.length, s1)
      ∧ s1.threads = s.threads
      ∧ submit s1 s.pools.length js = some (List.replicate js.length 0, s2)
      ∧ s2.log = s.log ∧ s2.threads = s.threads
      ∧ jobqueue_len s2 s.pools.length = some (js.length : Int)
      ∧ (jobqueue_list s2 s.pools.length).map (List.map fun x => x.2) = some js := by
  have h := zero_worker_pool_general s js created
  rw [Nat.min_eq_left hk] at h
  exact h

/-- Witness for C7 (amended): two jobs on a pool made at program start. -/
theorem zero_worker_pool_queues_witness :
    [((1 : Nat), (10 : Nat)), (2, 20)].length ≤ SEM_VALUE_MAX
      ∧ ∃ s1 s2, thpool_init Proc.start 0 InitMem.ok (fun _ => true) = some (some 0, s1)
        ∧ s1.threads = []
        ∧ submit s1 0 [(1, 10), (2, 20)] = some ([0, 0], s2)
        ∧ s2.log = [] ∧ s2.threads = []
        ∧ jobqueue_len s2 0 = some 2
        ∧ (jobqueue_list s2 0).map (List.map fun x => x.2) = some [(1, 10), (2, 20)] :=
  ⟨by decide, zero_worker_pool_queues Proc.start [(1, 10), (2, 20)] (fun _ => true) (by decide)⟩

/-! ## The single worker -/

theorem thread_step_while_alive {s : Proc} {u : Nat} {th : Thread}
    (hk : s.thpool_keepalive ≠ 0) (hth : s.threads[u]? = some th)
    (hpc : th.pc = PC.while_keepalive) :
    thpool_thread_do_step s u = some (s.setPc u PC.sem_wait) := by
  simp [thpool_thread_do_step, hth, hpc, hk]

theorem queued_setPc (s0 : Proc) (tp_p t : Nat) (tp0 : thpool_t) (js : List (Nat × Nat))
    (pc : PC) : (queued s0 tp_p tp0 js).setPc t pc = queued (s0.setPc t pc) tp_p tp0 js := rfl

/-- The loop test taken or not: the worker's first `k` steps, `k` at most 1,
on a state with jobs queued leave the jobs queued and the worker at its loop
test or at its `sem_wait`. -/
theorem first_steps_queued (s0 : Proc) (tp_p t k : Nat) (tp0 : thpool_t) (js : List (Nat × Nat))
    (hk : s0.thpool_keepalive ≠ 0) (hk1 : k ≤ 1)
    (hth : s0.threads[t]? = some { tp_p := tp_p, pc := PC.while_keepalive }) :
    ∃ pc0, (pc0 = PC.while_keepalive ∨ pc0 = PC.sem_wait)
      ∧ thpool_thread_do k (queued s0 tp_p tp0 js) t = queued (s0.setPc t pc0) tp_p tp0 js := by
  have hset : s0.setPc t PC.while_keepalive = s0 := by
    cases s0
    simp only [Proc.setPc, Proc.mk.injEq, true_and, and_true] at hth ⊢
    rw [List.modify_eq_set_get?, List.get?_eq_getElem?, hth]
    simp [set_of_getElem? _ _ _ hth]
  rcases Nat.le_one_iff_eq_zero_or_eq_one.mp hk1 with rfl | rfl
  · exact ⟨PC.while_keepalive, Or.inl rfl, by rw [hset]; rfl⟩
  · refine ⟨PC.sem_wait, Or.inr rfl, ?_⟩
    have hs : thpool_thread_do_step (queued s0 tp_p tp0 js) t
        = some ((queued s0 tp_p tp0 js).setPc t PC.sem_wait) :=
      @thread_step_while_alive _ _ { tp_p := tp_p, pc := PC.while_keepalive } hk hth rfl
    rw [thpool_thread_do_succ 0 hs, queued_setPc]
    rfl

/-- The worker alone on a queue of `js.length + 1` linked jobs with the
semaphore at `v + 1`, from its loop test or from its `sem_wait`, until it
waits again. -/
theorem run_all_from (s0 : Proc) (tp_p t : Nat) (tp0 : thpool_t) (ht : t < s0.threads.length)
    (hp : tp_p < s0.pools.length) (hk : s0.thpool_keepalive ≠ 0) (tl : Option Nat)
    (v : Nat) (js : List (Nat × Nat)) (j1 : Nat × Nat) (D : List (Option job_t))
    (pv : Option Nat) (L : List Event) (fuel : Nat) (hv : v ≤ js.length)
    (hf : 5 * (v + 1) + 1 ≤ fuel) (pc0 : PC)
    (hpc : pc0 = PC.while_keepalive ∨ pc0 = PC.sem_wait) :
    ∃ J q, thpool_thread_do fuel
        (working s0 tp_p t tp0 (D ++ cells D.length pv (j1 :: js))
          { head := some D.length, tail := tl } (v + 1) pc0 L) t
      = working s0 tp_p t tp0 J q 0 PC.sem_wait
          (L ++ worklog t D.length ((j1 :: js).take v) ++ [Event.pull t none]) := by
  rcases hpc with rfl | rfl
  · exact run_all s0 tp_p t tp0 ht hp hk tl v js j1 D pv L fuel hv hf
  · have h := run_all s0 tp_p t tp0 ht hp hk tl v js j1 D pv L (fuel + 1) hv (by omega)
    rw [thpool_thread_do_succ _ (step_while _ _ _ _ _ _ _ _ ht hk)] at h
    exact h

theorem calls_append : ∀ (L M : List Event), calls (L ++ M) = calls L ++ calls M
  | [], M => rfl
  | Event.call _ _ _ _ :: L, M => by simp [calls, calls_append L M]
  | Event.pull _ _ :: L, M => by simp [calls, calls_append L M]

theorem calls_worklog (t : Nat) : ∀ (js : List (Nat × Nat)) (a : Nat),
    calls (worklog t a js) = js
  | [], _ => rfl
  | j :: js, a => by simp [worklog, calls, calls_worklog t js (a + 1)]

theorem sem_of_succ (n : Nat) : ∃ v, min (n + 1) SEM_VALUE_MAX = v + 1 ∧ v ≤ n := by
  have hpos := SEM_VALUE_MAX_pos
  exact ⟨min (n + 1) SEM_VALUE_MAX - 1, by omega, by omega⟩

theorem fuel_of_sem (n v fuel : Nat) (hv : min (n + 1) SEM_VALUE_MAX = v + 1)
    (hf : 5 * (n + 1) + 1 ≤ fuel) : 5 * (v + 1) + 1 ≤ fuel := by
  omega

/-- The single worker for job lists of any length N >= 1: with M the smaller of
N and `SEM_VALUE_MAX`, the worker pulls and calls the first M-1 jobs. -/
theorem single_worker_general (s : Proc) (js1 js2 : List (Nat × Nat)) (k fuel : Nat)
    (hk : s.thpool_keepalive ≠ 0) (hne : js1 ++ js2 ≠ []) (hk1 : k ≤ 1)
    (hf : 5 * (js1 ++ js2).length + 1 ≤ fuel) :
    ∃ s1 s2 s3, thpool_init s 1 InitMem.ok (fun _ => true) = some (some s.pools.length, s1)
      ∧ submit s1 s.pools.length js1 = some (List.replicate js1.length 0, s2)
      ∧ submit (thpool_thread_do k s2 s.threads.length) s.pools.length js2
          = some (List.replicate js2.length 0, s3)
      ∧ jobqueue_list s3 s.pools.length = some (addressed s.jobs.length (js1 ++ js2))
      ∧ (thpool_thread_do fuel s3 s.threads.length).waiting s.threads.length = true
      ∧ (thpool_thread_do fuel s3 s.threads.length).log
          = s.log ++ worklog s.threads.length s.jobs.length
                ((js1 ++ js2).take (min (js1 ++ js2).length SEM_VALUE_MAX - 1))
              ++ [Event.pull s.threads.length none]
      ∧ calls (thpool_thread_do fuel s3 s.threads.length).log
          = calls s.log ++ (js1 ++ js2).take (min (js1 ++ js2).length SEM_VALUE_MAX - 1)
      ∧ jobqueue_len (thpool_thread_do fuel s3 s.threads.length) s.pools.length = some 0 := by
  obtain ⟨s1, tp, hi, hps, hts, hj, hl, hka, _, _, h3, h4⟩ := thpool_init_spec s 1 (fun _ => true)
  rw [started_all] at hts
  have hp := pool_of_pools_append hps
  have hlt : s.pools.length < s1.pools.length := pool_lt hp
  have hq := submit_queued s1 s.pools.length tp hlt js1 []
  rw [queued_nil hp h3 h4] at hq
  simp only [List.nil_append] at hq
  have hth : s1.threads[s.threads.length]?
      = some { tp_p := s.pools.length, pc := PC.while_keepalive } := by
    rw [hts]; simp
  obtain ⟨pc0, hpc0, hfirst⟩ := first_steps_queued s1 s.pools.length s.threads.length k tp js1
    (hka ▸ hk) hk1 hth
  generalize hs1' : s1.setPc s.threads.length pc0 = s1' at hfirst
  have hlt' : s.pools.length < s1'.pools.length := by rw [← hs1']; exact hlt
  have htl' : s.threads.length < s1'.threads.length := by
    rw [← hs1']; simp [Proc.setPc, hts]
  have hth' : s1'.threads[s.threads.length]? = some { tp_p := s.pools.length, pc := pc0 } := by
    rw [← hs1']; simp [Proc.setPc, hth]
  have hj' : s1'.jobs = s.jobs := by rw [← hs1']; exact hj
  have hl' : s1'.log = s.log := by rw [← hs1']; exact hl
  have hka' : s1'.thpool_keepalive ≠ 0 := by rw [← hs1']; exact hka ▸ hk
  have hq2 := submit_queued s1' s.pools.length tp hlt' js2 js1
  rw [← hfirst] at hq2
  obtain ⟨j, js, hjs⟩ : ∃ j js, js1 ++ js2 = j :: js := by
    cases h : js1 ++ js2 with
    | nil => exact absurd h hne
    | cons j js => exact ⟨j, js, rfl⟩
  rw [hjs] at hf ⊢
  obtain ⟨v, hv, hvle⟩ := sem_of_succ js.length
  have hv0 : min (j :: js).length SEM_VALUE_MAX = v + 1 := hv
  have hw : queued s1' s.pools.length tp (js1 ++ js2)
      = working s1' s.pools.length s.threads.length tp
          (s1'.jobs ++ cells s1'.jobs.length none (j :: js))
          { head := some s1'.jobs.length, tail := some (s1'.jobs.length + (j :: js).length - 1) }
          (v + 1) pc0 s1'.log := by
    rw [hjs]
    simp only [queued, working, hv0, set_of_getElem? _ _ _ hth', reduceCtorEq, if_false]
  obtain ⟨J, q, hr⟩ := run_all_from s1' s.pools.length s.threads.length tp htl' hlt' hka'
    (some (s1'.jobs.length + (j :: js).length - 1)) v js j s1'.jobs none s1'.log fuel hvle
    (fuel_of_sem js.length v fuel hv hf) pc0 hpc0
  rw [← hw] at hr
  rw [hv0, Nat.add_sub_cancel]
  refine ⟨s1, _, _, hi, hq, hq2, ?_, ?_, ?_, ?_, ?_⟩
  · rw [jobqueue_list_queued _ _ _ _ hlt', hj', hjs]
  · rw [hr]
    simp [Proc.waiting, thread_working _ _ _ _ _ _ _ _ _ htl', jobqueue_len,
      pool_working _ _ _ _ _ _ _ _ _ hlt']
  · rw [hr, hj', hl']; rfl
  · rw [hr, hj', hl']
    show calls (s.log ++ worklog s.threads.length s.jobs.length ((j :: js).take v)
      ++ [Event.pull s.threads.length none]) = _
    rw [calls_append, calls_append, calls_worklog]
    simp [calls]
  · rw [hr]
    simp [jobqueue_len, pool_working _ _ _ _ _ _ _ _ _ hlt']

/-- C10 (counterexample): on a pool fresh from `thpool_init(1)`, N = 2147483648
jobs, all equal to (1, 10), are submitted before the worker's first step; the
worker, run alone until it is blocked in `sem_wait`, has called 2147483646 of
them, that is N-2 and not N-1: the semaphore had stopped at
`SEM_VALUE_MAX`. -/
theorem worker_runs_two_fewer_past_sem_value_max :
    ∃ s1 s2, thpool_init Proc.start 1 InitMem.ok (fun _ => true) = some (some 0, s1)
      ∧ submit s1 0 (List.replicate 2147483648 (1, 10))
          = some (List.replicate 2147483648 0, s2)
      ∧ (thpool_thread_do 10737418241 s2 0).waiting 0 = true
      ∧ calls (thpool_thread_do 10737418241 s2 0).log = List.replicate 2147483646 (1, 10) := by
  have hne : List.replicate 2147483648 ((1 : Nat), (10 : Nat)) ++ [] ≠ [] := by
    intro h
    have := congrArg List.length h
    rw [List.append_nil, List.length_replicate] at this
    exact absurd this (by decide)
  have hf : 5 * (List.replicate 2147483648 ((1 : Nat), (10 : Nat)) ++ []).length + 1
      ≤ 10737418241 := by
    rw [List.append_nil, List.length_replicate]
  obtain ⟨s1, s2, s3, hi, hs, hs3, _, hw, _, hc, _⟩ :=
    single_worker_general Proc.start (List.replicate 2147483648 (1, 10)) [] 0 10737418241
      (by decide) hne (by decide) hf
  rw [List.length_replicate] at hs
  have e3 : s3 = s2 := by
    have h0 : thpool_thread_do 0 s2 Proc.start.threads.length = s2 := rfl
    rw [h0] at hs3
    have : submit s2 Proc.start.pools.length [] = some ([], s2) := rfl
    rw [this] at hs3
    simp only [List.length_nil, List.replicate_zero, Option.some.injEq, Prod.mk.injEq,
      true_and] at hs3
    exact hs3.symm
  subst e3
  rw [List.append_nil, List.length_replicate, List.take_replicate] at hc
  have hm : min (min 2147483648 SEM_VALUE_MAX - 1) 2147483648 = 2147483646 := by decide
  rw [hm] at hc
  exact ⟨s1, s3, hi, hs, hw, hc⟩

/-- C10 (amended): on a pool freshly returned by `thpool_init(1)`, its one
`pthread_create` succeeding, while the flag reads alive, let N jobs with
1 <= N <= `SEM_VALUE_MAX` be submitted by `thpool_add_work` before the worker's
first `sem_wait`: the jobs `js1`, then the worker's first `k` steps with `k`
at most 1 (nothing, or its loop test of line 90), then the jobs `js2`.  The
worker then run alone, with enough fuel, ends blocked in `sem_wait`; its
record is exactly, for each of the first N-1 jobs in submission order, a pull
returning that job followed by the call of that job, and then one pull
returning NULL: the N-th job is never returned by `jobqueue_pull` and never
called; and `jobqueue_len` ends at 0.  The submitted jobs sit at consecutive
addresses from `s.jobs.length` on. -/
theorem single_worker_skips_last_job (s : Proc) (js1 js2 : List (Nat × Nat)) (k fuel : Nat)
    (hk : s.thpool_keepalive ≠ 0) (hne : js1 ++ js2 ≠ [])
    (hmax : (js1 ++ js2).length ≤ SEM_VALUE_MAX) (hk1 : k ≤ 1)
    (hf : 5 * (js1 ++ js2).length + 1 ≤ fuel) :
    ∃ s1 s2 s3, thpool_init s 1 InitMem.ok (fun _ => true) = some (some s.pools.length, s1)
      ∧ submit s1 s.pools.length js1 = some (List.replicate js1.length 0, s2)
      ∧ submit (thpool_thread_do k s2 s.threads.length) s.pools.length js2
          = some (List.replicate js2.length 0, s3)
      ∧ jobqueue_list s3 s.pools.length = some (addressed s.jobs.length (js1 ++ js2))
      ∧ (thpool_thread_do fuel s3 s.threads.length).waiting s.threads.length = true
      ∧ (thpool_thread_do fuel s3 s.threads.length).log
          = s.log ++ worklog s.threads.length s.jobs.length (js1 ++ js2).dropLast
              ++ [Event.pull s.threads.length none]
      ∧ calls (thpool_thread_do fuel s3 s.threads.length).log
          = calls s.log ++ (js1 ++ js2).dropLast
      ∧ jobqueue_len (thpool_thread_do fuel s3 s.threads.length) s.pools.length = some 0 := by
  have h := single_worker_general s js1 js2 k fuel hk hne hk1 hf
  rw [Nat.min_eq_left hmax, ← List.dropLast_eq_take] at h
  exact h

/-- Witness for C10 (amended): on a pool made at program start, J1 = (1, 10) is
submitted, the worker takes its loop test, J2 = (2, 20) and J3 = (3, 30) are
submitted, and the worker runs with fuel 16. -/
theorem single_worker_skips_last_job_witness :
    Proc.start.thpool_keepalive ≠ 0
      ∧ [((1 : Nat), (10 : Nat))] ++ [(2, 20), (3, 30)] ≠ []
      ∧ ([((1 : Nat), (10 : Nat))] ++ [(2, 20), (3, 30)]).length ≤ SEM_VALUE_MAX
      ∧ 1 ≤ 1
      ∧ 5 * ([((1 : Nat), (10 : Nat))] ++ [(2, 20), (3, 30)]).length + 1 ≤ 16
      ∧ ∃ s1 s2 s3, thpool_init Proc.start 1 InitMem.ok (fun _ => true) = some (some 0, s1)
        ∧ submit s1 0 [(1, 10)] = some ([0], s2)
        ∧ submit (thpool_thread_do 1 s2 0) 0 [(2, 20), (3, 30)] = some ([0, 0], s3)
        ∧ jobqueue_list s3 0 = some [(0, 1, 10), (1, 2, 20), (2, 3, 30)]
        ∧ (thpool_thread_do 16 s3 0).waiting 0 = true
        ∧ (thpool_thread_do 16 s3 0).log
            = [Event.pull 0 (some 0), Event.call 0 0 1 10, Event.pull 0 (some 1),
               Event.call 0 1 2 20, Event.pull 0 none]
        ∧ calls (thpool_thread_do 16 s3 0).log = [(1, 10), (2, 20)]
        ∧ jobqueue_len (thpool_thread_do 16 s3 0) 0 = some 0 :=
  ⟨by decide, by decide, by decide, by decide, by decide,
    single_worker_skips_last_job Proc.start [(1, 10)] [(2, 20), (3, 30)] 1 16
      (by decide) (by decide) (by decide) (by decide) (by decide)⟩

/-! ## The flag is shared by all pools -/

theorem jobqueue_pull_pools {s : Proc} {tp_p : Nat} {r : Option Nat × Proc}
    (h : jobqueue_pull s tp_p = some r) : ∀ B, B ≠ tp_p → r.2.pool B = s.pool B := by
  intro B hB
  simp only [jobqueue_pull, Option.bind_eq_bind, Option.bind_eq_some] at h
  obtain ⟨tp, _, h⟩ := h
  split at h
  · simp at h; subst h; rfl
  · simp at h; subst h; exact pool_setPool_ne _ _ hB
  · simp only [Option.bind_eq_some] at h
    obtain ⟨j, _, s2, h2, h⟩ := h
    simp at h; subst h
    have e := pools_modJob h2
    have e2 : s2.pool B = (s.setPool tp_p
        { tp with jobqueue := { tp.jobqueue with head := j.next } }).pool B := by
      unfold Proc.pool
      rw [e]
    exact e2.trans (pool_setPool_ne _ _ hB)

/-- One step of a worker leaves every pool but its own unchanged. -/
theorem thread_step_pools {s s1 : Proc} {u : Nat} {th : Thread}
    (h : thpool_thread_do_step s u = some s1) (hth : s.threads[u]? = some th) :
    ∀ B, B ≠ th.tp_p → s1.pool B = s.pool B := by
  intro B hB
  simp only [thpool_thread_do_step, Option.bind_eq_bind, Option.bind_eq_some] at h
  obtain ⟨th1, hth1, h⟩ := h
  have e : th1 = th := Option.some.inj (hth1.symm.trans hth)
  subst e
  split at h
  next hpc => simp at h; subst h; rfl
  next hpc =>
    simp only [Option.bind_eq_some] at h
    obtain ⟨tp, _, h⟩ := h
    split at h
    · simp at h
    · simp at h; subst h
      exact pool_setPool_ne _ _ hB
  next hpc => simp at h; subst h; rfl
  next hpc =>
    simp only [Option.bind_eq_some] at h
    obtain ⟨r, hr, h⟩ := h
    simp at h; subst h
    exact jobqueue_pull_pools hr B hB
  next hpc => simp at h; subst h; rfl
  next p hpc =>
    simp only [Option.bind_eq_some] at h
    obtain ⟨j, _, s2, h2, h⟩ := h
    simp at h; subst h
    have e := pools_free h2
    show (s2.pools[B]?).join = (s.pools[B]?).join
    rw [e]
  next hpc => simp at h

theorem owners_modify (pc : PC) : ∀ (l : List Thread) (t : Nat),
    (List.modify (fun th => { th with pc := pc }) t l).map (fun th => th.tp_p)
      = l.map (fun th => th.tp_p)
  | [], _ => by simp
  | _ :: _, 0 => by simp
  | a :: l, t + 1 => by simp [owners_modify pc l t]

theorem ofPool_congr {s s1 : Proc} (A d : Nat)
    (h : s1.threads.map (fun th => th.tp_p) = s.threads.map (fun th => th.tp_p)) :
    Action.ofPool s1 A d = Action.ofPool s A d := by
  funext a
  cases a with
  | thread t =>
    have e := congrArg (fun l => l[t]?) h
    simp only [List.getElem?_map] at e
    simp only [Action.ofPool, e]
  | init n => rfl
  | add_work tp_p f x => rfl
  | destroy_call tp_p => rfl
  | destroy d1 => rfl

/-- The call `d` is a call `thpool_destroy(A)`, and the flag is zero once the
call is past line 155. -/
theorem step_flag {s s1 : Proc} {a : Action} (d A : Nat) (h : step s a = some s1)
    (hinv : ∃ c, s.destroys[d]? = some c ∧ c.tp_p = A
      ∧ (c.pc ≠ DPC.keepalive → s.thpool_keepalive = 0)) :
    ∃ c, s1.destroys[d]? = some c ∧ c.tp_p = A
      ∧ (c.pc ≠ DPC.keepalive → s1.thpool_keepalive = 0) := by
  obtain ⟨c, hc, hA, hflag⟩ := hinv
  cases a with
  | init n =>
    simp only [step, thpool_init_eq, Option.map_some', Option.some.injEq] at h
    subst h
    exact ⟨c, hc, hA, hflag⟩
  | add_work tp_p f x =>
    simp only [step, Option.map_eq_some'] at h
    obtain ⟨r, hr, rfl⟩ := h
    have a := same_thpool_add_work hr
    exact ⟨c, by rw [a.2.2.2]; exact hc, hA, fun hne => a.1.trans (hflag hne)⟩
  | thread u =>
    obtain ⟨_, _, _, _, _, hk, _, _, hd⟩ := thread_step_moves h
    exact ⟨c, by rw [hd]; exact hc, hA, fun hne => hk.trans (hflag hne)⟩
  | destroy_call tp_p =>
    simp only [step, Option.some.injEq] at h
    subst h
    have hlt : d < s.destroys.length := by
      by_contra hn
      rw [List.getElem?_eq_none (by omega)] at hc
      cases hc
    exact ⟨c, by rw [List.getElem?_append_left hlt]; exact hc, hA, hflag⟩
  | destroy d1 =>
    obtain ⟨c1, pc1, hc1, hds, _, _, _, _, hk1, hk2⟩ := destroy_step_frame h
    by_cases hd : d1 = d
    · subst hd
      have e : c1 = c := Option.some.inj (hc1.symm.trans hc)
      subst e
      refine ⟨{ c1 with pc := pc1 }, by rw [hds]; simp [hc], hA, fun _ => ?_⟩
      by_cases hk : c1.pc = DPC.keepalive
      · exact hk1 hk
      · exact (hk2 hk).trans (hflag hk)
    · refine ⟨c, by rw [hds, List.getElem?_modify_ne _ _ hd]; exact hc, hA, fun hne => ?_⟩
      by_cases hk : c1.pc = DPC.keepalive
      · exact hk1 hk
      · exact (hk2 hk).trans (hflag hne)

theorem exec_flag (d A : Nat) : ∀ (acts : List Action) (s s1 : Proc),
    exec s acts = some s1 →
    (∃ c, s.destroys[d]? = some c ∧ c.tp_p = A
      ∧ (c.pc ≠ DPC.keepalive → s.thpool_keepalive = 0)) →
    ∃ c, s1.destroys[d]? = some c ∧ c.tp_p = A
      ∧ (c.pc ≠ DPC.keepalive → s1.thpool_keepalive = 0)
  | [], s, s1, h, hinv => by
    simp only [exec, Option.some.injEq] at h
    subst h
    exact hinv
  | a :: acts, s, s1, h, hinv => by
    simp only [exec, Option.bind_eq_some] at h
    obtain ⟨s2, h2, h⟩ := h
    exact exec_flag d A acts s2 s1 h (step_flag d A h2 hinv)

/-- One step of the call `d` of `thpool_destroy(A)` or of a worker of pool `A`:
every other pool and every worker of another pool are unchanged, and every
thread keeps its pool. -/
theorem step_ofPool {s s1 : Proc} {a : Action} (A d : Nat) (h : step s a = some s1)
    (ha : Action.ofPool s A d a = true)
    (hd : ∃ c, s.destroys[d]? = some c ∧ c.tp_p = A) :
    (∀ B, B ≠ A → s1.pool B = s.pool B)
      ∧ (∀ (u : Nat) (th : Thread), s.threads[u]? = some th → th.tp_p ≠ A → s1.threads[u]? = some th)
      ∧ s1.threads.map (fun th => th.tp_p) = s.threads.map (fun th => th.tp_p) := by
  obtain ⟨c, hc, hA⟩ := hd
  cases a with
  | init n => simp [Action.ofPool] at ha
  | add_work tp_p f x => simp [Action.ofPool] at ha
  | destroy_call tp_p => simp [Action.ofPool] at ha
  | thread t =>
    simp only [Action.ofPool, decide_eq_true_eq, Option.map_eq_some'] at ha
    obtain ⟨th, hth, hA2⟩ := ha
    obtain ⟨_, pc1, _, _, _, _, hts, _, _⟩ := thread_step_moves h
    refine ⟨fun B hB => thread_step_pools h hth B (by rw [hA2]; exact hB), fun u thu hu hne => ?_,
      by rw [hts, owners_modify]⟩
    have hut : t ≠ u := by
      intro e
      subst e
      have e2 : thu = th := Option.some.inj (hu.symm.trans hth)
      exact hne (by rw [e2, hA2])
    rw [hts, List.getElem?_modify_ne _ _ hut]
    exact hu
  | destroy d1 =>
    simp only [Action.ofPool, decide_eq_true_eq] at ha
    subst ha
    obtain ⟨c1, _, hc1, _, hts, _, _, hpo, _, _⟩ := destroy_step_frame h
    have e : c1 = c := Option.some.inj (hc1.symm.trans hc)
    subst e
    exact ⟨fun B hB => hpo B (by rw [hA]; exact hB), fun u thu hu _ => by rw [hts]; exact hu,
      by rw [hts]⟩

theorem exec_ofPool (A d : Nat) : ∀ (acts : List Action) (s s1 : Proc),
    exec s acts = some s1 → acts.all (Action.ofPool s A d) = true →
    (∃ c, s.destroys[d]? = some c ∧ c.tp_p = A
      ∧ (c.pc ≠ DPC.keepalive → s.thpool_keepalive = 0)) →
    (∀ B, B ≠ A → s1.pool B = s.pool B)
      ∧ (∀ (u : Nat) (th : Thread), s.threads[u]? = some th → th.tp_p ≠ A → s1.threads[u]? = some th)
  | [], s, s1, h, _, _ => by
    simp only [exec, Option.some.injEq] at h
    subst h
    exact ⟨fun _ _ => rfl, fun _ _ hu _ => hu⟩
  | a :: acts, s, s1, h, hall, hinv => by
    simp only [exec, Option.bind_eq_some] at h
    obtain ⟨s2, h2, h⟩ := h
    simp only [List.all_cons, Bool.and_eq_true] at hall
    obtain ⟨c, hc, hA, hflag⟩ := hinv
    obtain ⟨p1, p2, p3⟩ := step_ofPool A d h2 hall.1 ⟨c, hc, hA⟩
    have hall2 : acts.all (Action.ofPool s2 A d) = true := by
      rw [ofPool_congr A d p3]
      exact hall.2
    obtain ⟨q1, q2⟩ := exec_ofPool A d acts s2 s1 h hall2 (step_flag d A h2 ⟨c, hc, hA, hflag⟩)
    exact ⟨fun B hB => (q1 B hB).trans (p1 B hB), fun u th hu hne => q2 u th (p2 u th hu hne) hne⟩

/-- C9 (counterexample): pools A and B have one worker each, both idle in
`sem_wait`.  `thpool_destroy(A)` runs and returns, A's worker having woken
and returned; the flag reads 0.  Two jobs are then submitted to B, and B's
worker, run until it cannot step, has woken, read the flag at line 97 and
returned from `thpool_thread_do` without calling either job; both stay
queued.  Without the call `thpool_destroy(A)` the same submissions make B's
worker call the job (1, 10). -/
theorem destroy_of_A_stops_worker_of_B :
    (exec Proc.start (run_two_pools ++ Action.destroy_call 0 :: run_destroy_A ++ run_submit_B)).map
        (fun s => s.destroys) = some [{ tp_p := 0, pc := DPC.returned }]
      ∧ (exec Proc.start (run_two_pools ++ Action.destroy_call 0 :: run_destroy_A
          ++ run_submit_B)).map (fun s => s.thpool_keepalive) = some 0
      ∧ (exec Proc.start (run_two_pools ++ Action.destroy_call 0 :: run_destroy_A
          ++ run_submit_B)).map (fun s => (thpool_thread_do 10 s 1).threads)
          = some [{ tp_p := 0, pc := PC.returned }, { tp_p := 1, pc := PC.returned }]
      ∧ (exec Proc.start (run_two_pools ++ Action.destroy_call 0 :: run_destroy_A
          ++ run_submit_B)).map (fun s => calls (thpool_thread_do 10 s 1).log) = some []
      ∧ (exec Proc.start (run_two_pools ++ Action.destroy_call 0 :: run_destroy_A
          ++ run_submit_B)).bind (fun s => jobqueue_list (thpool_thread_do 10 s 1) 1)
          = some [(0, 1, 10), (1, 2, 20)]
      ∧ (exec Proc.start (run_two_pools ++ run_submit_B)).map
          (fun s => calls (thpool_thread_do 10 s 1).log) = some [(1, 10)] := by
  decide

/-- C9 (amended): the flag is the one static variable that every pool reads.
Let a call `thpool_destroy(A)` be entered in any state `s` and let any
schedule `acts` follow (steps of that call, of the workers of any pool,
submissions, further pools and calls), ending in `s1` with the call past its
line 155, in particular with the call returned.  Then in `s1` the flag reads
0; every worker thread, of any pool B as of A, that stands at a test of the
flag (line 90 or line 97) returns from `thpool_thread_do` at its next step,
without pulling or calling a job; and in every continuation the flag stays 0
and every worker calls at most the one job it had in flight in `s1`.  When
the schedule holds only steps of that call and of A's workers, every other
pool B is unchanged (queue pointers, semaphore, thread table) and every
worker of another pool stands where it stood. -/
theorem destroy_stops_every_pool (s s1 : Proc) (A : Nat) (acts : List Action)
    (h : exec s (Action.destroy_call A :: acts) = some s1)
    (hpast : (s1.destroys[s.destroys.length]?).map (fun c => c.pc) ≠ some DPC.keepalive) :
    s1.thpool_keepalive = 0
      ∧ (∀ (u : Nat) (th : Thread), s1.threads[u]? = some th →
          th.pc = PC.while_keepalive ∨ th.pc = PC.if_keepalive →
          thpool_thread_do_step s1 u = some (s1.setPc u PC.returned))
      ∧ (∀ acts2 s2 t, exec s1 acts2 = some s2 →
          s2.thpool_keepalive = 0 ∧ callsBy t s2.log ≤ callsBy t s1.log + inFlight s1 t)
      ∧ (acts.all (Action.ofPool s A s.destroys.length) = true →
          (∀ B, B ≠ A → s1.pool B = s.pool B)
            ∧ ∀ (u : Nat) (th : Thread), s.threads[u]? = some th → th.tp_p ≠ A → s1.threads[u]? = some th) := by
  simp only [exec, step, Option.some_bind] at h
  have hinv : ∃ c, (s.destroys ++ [{ tp_p := A, pc := DPC.keepalive }])[s.destroys.length]? = some c
      ∧ c.tp_p = A ∧ (c.pc ≠ DPC.keepalive → s.thpool_keepalive = 0) :=
    ⟨{ tp_p := A, pc := DPC.keepalive }, getElem?_at_length _ _ _, rfl, fun hne => absurd rfl hne⟩
  obtain ⟨c, hc, _, hflag⟩ := exec_flag s.destroys.length A acts _ s1 h hinv
  have h0 : s1.thpool_keepalive = 0 := by
    apply hflag
    intro hk
    apply hpast
    rw [hc, Option.map_some', hk]
  refine ⟨h0, fun u th hth hpc => thread_step_stopped h0 hth hpc, fun acts2 s2 t h2 => ?_,
    fun hall => exec_ofPool A s.destroys.length acts
      { s with destroys := s.destroys ++ [{ tp_p := A, pc := DPC.keepalive }] } s1 h hall hinv⟩
  have a := exec_owed t acts2 s1 s2 h0 h2
  exact ⟨a.1, by omega⟩

/-- Witness for C9 (amended): pools A and B of the counterexample, each with
its worker idle in `sem_wait`; the call `thpool_destroy(A)` of `run_destroy_A`
returns. -/
theorem destroy_stops_every_pool_witness :
    exec Proc.start run_two_pools = some two_pools
      ∧ exec two_pools (Action.destroy_call 0 :: run_destroy_A) = some two_pools_destroyed
      ∧ (two_pools_destroyed.destroys[two_pools.destroys.length]?).map (fun c => c.pc)
          = some DPC.returned
      ∧ run_destroy_A.all (Action.ofPool two_pools 0 two_pools.destroys.length) = true
      ∧ two_pools_destroyed.thpool_keepalive = 0
      ∧ (∀ (u : Nat) (th : Thread), two_pools_destroyed.threads[u]? = some th →
          th.pc = PC.while_keepalive ∨ th.pc = PC.if_keepalive →
          thpool_thread_do_step two_pools_destroyed u
            = some (two_pools_destroyed.setPc u PC.returned))
      ∧ (∀ acts2 s2 t, exec two_pools_destroyed acts2 = some s2 →
          s2.thpool_keepalive = 0
            ∧ callsBy t s2.log ≤ callsBy t two_pools_destroyed.log + inFlight two_pools_destroyed t)
      ∧ (∀ B, B ≠ 0 → two_pools_destroyed.pool B = two_pools.pool B)
      ∧ ∀ (u : Nat) (th : Thread), two_pools.threads[u]? = some th → th.tp_p ≠ 0 →
          two_pools_destroyed.threads[u]? = some th :=
  ⟨by decide, by decide, by decide, by decide,
    (destroy_stops_every_pool two_pools two_pools_destroyed 0 run_destroy_A
      (by decide) (by decide)).1,
    (destroy_stops_every_pool two_pools two_pools_destroyed 0 run_destroy_A
      (by decide) (by decide)).2.1,
    (destroy_stops_every_pool two_pools two_pools_destroyed 0 run_destroy_A
      (by decide) (by decide)).2.2.1,
    (destroy_stops_every_pool two_pools two_pools_destroyed 0 run_destroy_A
      (by decide) (by decide)).2.2.2 (by decide)⟩

end ThPool
